import Mathlib

/-!
Verification of the VideoFrameExtractor pipeline (`src/module.js`).

The embedding models JavaScript numbers occurring in the pipeline as an
inductive type `VFE.JSNum` over exact rationals, with explicit `NaN` and
signed-infinity constructors so that the host language's `x / 0`,
`0 / 0 = NaN` and `NaN <= c = false` behaviours are preserved.  Strings
are modelled as `List Char`.  External collaborators (ffmpeg, ffprobe,
Cloudinary, OpenAI, Prisma) are parameters of the pipeline model; the
local file system is a list of paths threaded through the model.
-/

namespace VFE

/-- JavaScript number: an exact rational, NaN, or a signed infinity
(`inf true` is positive infinity).  Exact rationals stand in for IEEE
doubles; the pipeline's arithmetic is modelled exactly. -/
inductive JSNum where
  | fin : ℚ → JSNum
  | nan : JSNum
  | inf : Bool → JSNum
deriving DecidableEq, Repr

/-- JavaScript division `a / b` (`0/0 = NaN`, `x/0 = ±Infinity` for `x ≠ 0`). -/
def jsDiv : JSNum → JSNum → JSNum
  | .nan, _ => .nan
  | _, .nan => .nan
  | .inf _, .inf _ => .nan
  | .fin _, .inf _ => .fin 0
  | .inf s, .fin q => if q < 0 then .inf (!s) else .inf s
  | .fin a, .fin b =>
    if b = 0 then (if a = 0 then .nan else .inf (decide (0 < a)))
    else .fin (a / b)

/-- JavaScript multiplication (`NaN` propagates, `0 * Infinity = NaN`). -/
def jsMul : JSNum → JSNum → JSNum
  | .nan, _ => .nan
  | _, .nan => .nan
  | .inf s, .inf t => .inf (s == t)
  | .inf s, .fin q => if q = 0 then .nan else .inf (if 0 < q then s else !s)
  | .fin q, .inf s => if q = 0 then .nan else .inf (if 0 < q then s else !s)
  | .fin a, .fin b => .fin (a * b)

/-- JavaScript `Math.max` on two numbers (`NaN` absorbs). -/
def jsMax : JSNum → JSNum → JSNum
  | .nan, _ => .nan
  | _, .nan => .nan
  | .inf true, _ => .inf true
  | _, .inf true => .inf true
  | .inf false, y => y
  | x, .inf false => x
  | .fin a, .fin b => .fin (max a b)

/-- JavaScript `<=` comparison on numbers; any comparison with `NaN` is false. -/
def jsLeNum : JSNum → JSNum → Bool
  | .nan, _ => false
  | _, .nan => false
  | .fin a, .fin b => decide (a ≤ b)
  | .inf s, .fin _ => !s
  | .fin _, .inf s => s
  | .inf s, .inf t => !s || t

/-- Does this JavaScript number equal a finite nonnegative rational? -/
def finNonneg : JSNum → Bool
  | .fin q => decide (0 ≤ q)
  | _ => false

/-- A frame record as built in `extractAndUploadFrames`
(`{ id, timestamp, url, size }`). -/
structure Frame where
  id : List Char
  timestamp : JSNum
  url : List Char
  size : ℚ
deriving DecidableEq, Repr

/-- One of the five narrative buckets. -/
inductive Bucket where
  | opening | setup | mainB | climax | closing
deriving DecidableEq, Repr

/-- The value returned by `categorizeFrames`: five frame buckets plus
`maxTimestamp` (`module.js` lines 42-70). -/
structure Categorized where
  opening : List Frame
  setup : List Frame
  main : List Frame
  climax : List Frame
  closing : List Frame
  maxTimestamp : JSNum
deriving DecidableEq, Repr

/-- The all-empty categorization returned for empty input. -/
def emptyCat : Categorized := ⟨[], [], [], [], [], .fin 0⟩

/-- The threshold chain of `categorizeFrames` (lines 62-67): percent of the
max timestamp, compared with `<= 10 / 20 / 60 / 90`, else closing. -/
def assignBucket (maxTimestamp : JSNum) (f : Frame) : Bucket :=
  let perc := jsMul (jsDiv f.timestamp maxTimestamp) (.fin 100)
  if jsLeNum perc (.fin 10) then .opening
  else if jsLeNum perc (.fin 20) then .setup
  else if jsLeNum perc (.fin 60) then .mainB
  else if jsLeNum perc (.fin 90) then .climax
  else .closing

/-- Source operation `categories.<bucket>.push(frame)`. -/
def pushBucket (c : Categorized) (b : Bucket) (f : Frame) : Categorized :=
  match b with
  | .opening => { c with opening := c.opening ++ [f] }
  | .setup => { c with setup := c.setup ++ [f] }
  | .mainB => { c with main := c.main ++ [f] }
  | .climax => { c with climax := c.climax ++ [f] }
  | .closing => { c with closing := c.closing ++ [f] }

/-- Source function `categorizeFrames` (`module.js` lines 42-70): empty input yields all-empty
buckets with `maxTimestamp = 0`; otherwise `maxTimestamp` is
`frames.reduce((max, f) => Math.max(max, f.timestamp), 0)` and each frame is
pushed onto the bucket selected by the threshold chain. -/
def categorizeFrames (frames : List Frame) : Categorized :=
  if frames = [] then emptyCat
  else
    let maxT := frames.foldl (fun m f => jsMax m f.timestamp) (.fin 0)
    frames.foldl (fun c f => pushBucket c (assignBucket maxT f) f)
      ⟨[], [], [], [], [], maxT⟩

theorem jsMax_fin_fin (a b : ℚ) : jsMax (.fin a) (.fin b) = .fin (max a b) := rfl

/-- Folding `Math.max` over finite nonnegative timestamps starting from a
finite seed yields a finite value that is the seed or an element, bounds the
seed, and bounds every element. -/
theorem foldl_jsMax_spec (fs : List Frame) :
    ∀ a : ℚ, (∀ f ∈ fs, finNonneg f.timestamp = true) →
    ∃ M : ℚ, fs.foldl (fun m f => jsMax m f.timestamp) (.fin a) = .fin M ∧
      (M = a ∨ JSNum.fin M ∈ fs.map Frame.timestamp) ∧ a ≤ M ∧
      ∀ f ∈ fs, jsLeNum f.timestamp (.fin M) = true := by
  induction fs with
  | nil => intro a _; exact ⟨a, rfl, Or.inl rfl, le_refl a, by simp⟩
  | cons f fs ih =>
    intro a h
    have hf : finNonneg f.timestamp = true := h f (List.mem_cons_self f fs)
    obtain ⟨q, hq⟩ : ∃ q : ℚ, f.timestamp = .fin q := by
      cases hft : f.timestamp with
      | fin q => exact ⟨q, rfl⟩
      | nan => rw [hft] at hf; simp [finNonneg] at hf
      | inf s => rw [hft] at hf; simp [finNonneg] at hf
    obtain ⟨M, hM, hmem, hle, hall⟩ :=
      ih (max a q) (fun g hg => h g (List.mem_cons_of_mem f hg))
    refine ⟨M, ?_, ?_, ?_, ?_⟩
    · simpa [hq, jsMax_fin_fin] using hM
    · rcases hmem with hMa | hMl
      · rcases max_choice a q with hc | hc
        · exact Or.inl (hMa.trans hc)
        · exact Or.inr (by simp [hq, hMa, hc])
      · exact Or.inr (List.mem_cons_of_mem _ hMl)
    · exact (le_max_left a q).trans hle
    · intro g hg
      rcases List.mem_cons.mp hg with hgf | hgl
      · subst hgf
        have : q ≤ M := (le_max_right a q).trans hle
        simp [hq, jsLeNum, this]
      · exact hall g hgl

/-- The bucket-pushing fold appends, to each bucket of the accumulator, the
frames the threshold chain assigns to that bucket, in input order, and leaves
`maxTimestamp` unchanged. -/
theorem foldl_push_filter (m : JSNum) (fs : List Frame) :
    ∀ init : Categorized,
    fs.foldl (fun c f => pushBucket c (assignBucket m f) f) init =
      { opening := init.opening ++ fs.filter (fun f => assignBucket m f == .opening),
        setup := init.setup ++ fs.filter (fun f => assignBucket m f == .setup),
        main := init.main ++ fs.filter (fun f => assignBucket m f == .mainB),
        climax := init.climax ++ fs.filter (fun f => assignBucket m f == .climax),
        closing := init.closing ++ fs.filter (fun f => assignBucket m f == .closing),
        maxTimestamp := init.maxTimestamp } := by
  induction fs with
  | nil => intro init; simp
  | cons f fs ih =>
    intro init
    rw [List.foldl_cons, ih]
    cases h : assignBucket m f <;>
      simp [pushBucket, h, List.filter_cons]

/-- Frames are distributed among the five buckets without loss or
duplication: the bucket lengths sum to the input length. -/
theorem sum_filter_buckets (m : JSNum) (fs : List Frame) :
    (fs.filter (fun f => assignBucket m f == .opening)).length +
    (fs.filter (fun f => assignBucket m f == .setup)).length +
    (fs.filter (fun f => assignBucket m f == .mainB)).length +
    (fs.filter (fun f => assignBucket m f == .climax)).length +
    (fs.filter (fun f => assignBucket m f == .closing)).length = fs.length := by
  induction fs with
  | nil => simp
  | cons f fs ih =>
    cases h : assignBucket m f <;> simp [List.filter_cons, h] <;> omega

/-- With every timestamp finite and nonnegative, `maxTimestamp` is the
`Math.max`-fold starting at 0. -/
theorem categorizeFrames_maxTimestamp (fs : List Frame) (h : fs ≠ []) :
    (categorizeFrames fs).maxTimestamp =
      fs.foldl (fun m f => jsMax m f.timestamp) (.fin 0) := by
  rw [categorizeFrames, if_neg h, foldl_push_filter]

/-- A single frame used in concrete evaluations. -/
def frame0 : Frame := ⟨('f' : Char) :: [], .fin 0, [], 0⟩

/-- C1 counterexample: on the one-frame sequence whose only timestamp is 0
(`maxTimestamp = 0`), `categorizeFrames` leaves the opening bucket empty and
puts the frame in the closing bucket, because `0 / 0` is `NaN` and every
`NaN <= c` comparison is false — contradicting the claim that every frame is
placed in the opening bucket with `percent = 0`. -/
theorem categorize_allZero_not_opening :
    (categorizeFrames [frame0]).opening = [] ∧
    (categorizeFrames [frame0]).closing = [frame0] := by decide

/-- Folding `Math.max` over all-zero timestamps from a finite seed keeps the
seed clipped below by 0. -/
theorem foldl_jsMax_allZero (fs : List Frame) :
    ∀ a : ℚ, 0 ≤ a → (∀ f ∈ fs, f.timestamp = .fin 0) →
      fs.foldl (fun m f => jsMax m f.timestamp) (.fin a) = .fin a := by
  induction fs with
  | nil => intro a _ _; rfl
  | cons f fs ih =>
    intro a ha hz'
    have hft := hz' f (List.mem_cons_self f fs)
    rw [List.foldl_cons, hft, jsMax_fin_fin, max_eq_left ha,
      ih a ha (fun g hg => hz' g (List.mem_cons_of_mem f hg))]

/-- C1 (amended): for every non-empty frame sequence in which every frame's
timestamp is 0, `maxTimestamp = 0`, the computed percent is `NaN` (`0/0`),
every threshold comparison is false, and therefore every frame is placed in
the closing bucket (all other buckets empty). -/
theorem categorize_allZero_closing (fs : List Frame) (hne : fs ≠ [])
    (hz : ∀ f ∈ fs, f.timestamp = .fin 0) :
    categorizeFrames fs = ⟨[], [], [], [], fs, .fin 0⟩ := by
  have hmax : fs.foldl (fun m f => jsMax m f.timestamp) (.fin 0) = .fin 0 := by
    simpa using foldl_jsMax_allZero fs 0 le_rfl hz
  have hassign : ∀ f ∈ fs, assignBucket (.fin 0) f = .closing := by
    intro f hf
    have ht := hz f hf
    simp only [assignBucket, ht]
    decide
  rw [categorizeFrames, if_neg hne, hmax, foldl_push_filter]
  have hcl : fs.filter (fun f => assignBucket (.fin 0) f == .closing) = fs :=
    List.filter_eq_self.mpr (fun f hf => by simp [hassign f hf])
  have hnot : ∀ b : Bucket, b ≠ .closing →
      fs.filter (fun f => assignBucket (.fin 0) f == b) = [] := by
    intro b hb
    refine List.filter_eq_nil_iff.mpr (fun f hf => ?_)
    simp [hassign f hf]
    exact fun hc => hb hc.symm
  simp [hcl, hnot Bucket.opening (by simp), hnot Bucket.setup (by simp),
    hnot Bucket.mainB (by simp), hnot Bucket.climax (by simp)]

/-- Witness for the amended C1 theorem at a concrete one-frame input. -/
theorem categorize_allZero_closing_witness :
    categorizeFrames [frame0] = ⟨[], [], [], [], [frame0], .fin 0⟩ :=
  categorize_allZero_closing [frame0] (by decide) (by decide)

/-- C2: for frame sequences with finite nonnegative timestamps, the five
buckets of `categorizeFrames` partition the input exactly — each bucket is
the in-order sublist of input frames the threshold chain assigns to it
(hence relative order is preserved and no frame appears in two buckets), the
bucket lengths sum to the input length (no frame duplicated or dropped) —
and `maxTimestamp` is attained by some input frame and bounds every input
timestamp; on the empty input all buckets are empty and `maxTimestamp = 0`. -/
theorem categorizeFrames_partition (fs : List Frame)
    (h : ∀ f ∈ fs, finNonneg f.timestamp = true) :
    (fs = [] → categorizeFrames fs = emptyCat) ∧
    (fs ≠ [] →
      (categorizeFrames fs).opening =
        fs.filter (fun f => assignBucket (categorizeFrames fs).maxTimestamp f == .opening) ∧
      (categorizeFrames fs).setup =
        fs.filter (fun f => assignBucket (categorizeFrames fs).maxTimestamp f == .setup) ∧
      (categorizeFrames fs).main =
        fs.filter (fun f => assignBucket (categorizeFrames fs).maxTimestamp f == .mainB) ∧
      (categorizeFrames fs).climax =
        fs.filter (fun f => assignBucket (categorizeFrames fs).maxTimestamp f == .climax) ∧
      (categorizeFrames fs).closing =
        fs.filter (fun f => assignBucket (categorizeFrames fs).maxTimestamp f == .closing) ∧
      (categorizeFrames fs).opening.length + (categorizeFrames fs).setup.length +
        (categorizeFrames fs).main.length + (categorizeFrames fs).climax.length +
        (categorizeFrames fs).closing.length = fs.length ∧
      (categorizeFrames fs).maxTimestamp ∈ fs.map Frame.timestamp ∧
      ∀ f ∈ fs, jsLeNum f.timestamp (categorizeFrames fs).maxTimestamp = true) := by
  constructor
  · intro he; rw [categorizeFrames, if_pos he]
  · intro hne
    obtain ⟨M, hM, hmem, hle0, hall⟩ := foldl_jsMax_spec fs 0 h
    have hmaxT : (categorizeFrames fs).maxTimestamp = .fin M := by
      rw [categorizeFrames_maxTimestamp fs hne, hM]
    have hcat : categorizeFrames fs =
        { opening := fs.filter (fun f => assignBucket (.fin M) f == .opening),
          setup := fs.filter (fun f => assignBucket (.fin M) f == .setup),
          main := fs.filter (fun f => assignBucket (.fin M) f == .mainB),
          climax := fs.filter (fun f => assignBucket (.fin M) f == .climax),
          closing := fs.filter (fun f => assignBucket (.fin M) f == .closing),
          maxTimestamp := .fin M } := by
      rw [categorizeFrames, if_neg hne, hM, foldl_push_filter]
      simp
    have hMin : JSNum.fin M ∈ fs.map Frame.timestamp := by
      rcases hmem with hM0 | hMl
      · subst hM0
        obtain ⟨f, hf⟩ := List.exists_mem_of_ne_nil fs hne
        have hfn := h f hf
        obtain ⟨q, hq⟩ : ∃ q : ℚ, f.timestamp = .fin q := by
          cases hft : f.timestamp with
          | fin q => exact ⟨q, rfl⟩
          | nan => rw [hft] at hfn; simp [finNonneg] at hfn
          | inf s => rw [hft] at hfn; simp [finNonneg] at hfn
        have hub := hall f hf
        rw [hq] at hub
        have hq0 : 0 ≤ q := by
          have := h f hf; rw [hq] at this; simpa [finNonneg] using this
        have hqM : q ≤ (0 : ℚ) := by simpa [jsLeNum] using hub
        have hq00 : q = 0 := le_antisymm hqM hq0
        subst hq00
        exact List.mem_map.mpr ⟨f, hf, hq⟩
      · exact hMl
    refine ⟨?_, ?_, ?_, ?_, ?_, ?_, ?_, ?_⟩ <;>
      rw [hcat] <;> simp only []
    · exact sum_filter_buckets (.fin M) fs
    · exact hMin
    · exact hall

/-- Spec §8's worked example: frames at timestamps 0, 1, 5, 9, 10 give
`maxTimestamp = 10` and the stated buckets; used as the concrete witness for
the partition theorem. -/
def exampleFrames : List Frame :=
  [⟨[], .fin 0, [], 0⟩, ⟨[], .fin 1, [], 0⟩, ⟨[], .fin 5, [], 0⟩,
   ⟨[], .fin 9, [], 0⟩, ⟨[], .fin 10, [], 0⟩]

/-- Witness for the partition theorem at the spec's worked example. -/
theorem categorizeFrames_partition_witness :
    (exampleFrames = [] → categorizeFrames exampleFrames = emptyCat) ∧
    (exampleFrames ≠ [] →
      (categorizeFrames exampleFrames).opening =
        exampleFrames.filter
          (fun f => assignBucket (categorizeFrames exampleFrames).maxTimestamp f == .opening) ∧
      (categorizeFrames exampleFrames).setup =
        exampleFrames.filter
          (fun f => assignBucket (categorizeFrames exampleFrames).maxTimestamp f == .setup) ∧
      (categorizeFrames exampleFrames).main =
        exampleFrames.filter
          (fun f => assignBucket (categorizeFrames exampleFrames).maxTimestamp f == .mainB) ∧
      (categorizeFrames exampleFrames).climax =
        exampleFrames.filter
          (fun f => assignBucket (categorizeFrames exampleFrames).maxTimestamp f == .climax) ∧
      (categorizeFrames exampleFrames).closing =
        exampleFrames.filter
          (fun f => assignBucket (categorizeFrames exampleFrames).maxTimestamp f == .closing) ∧
      (categorizeFrames exampleFrames).opening.length +
        (categorizeFrames exampleFrames).setup.length +
        (categorizeFrames exampleFrames).main.length +
        (categorizeFrames exampleFrames).climax.length +
        (categorizeFrames exampleFrames).closing.length = exampleFrames.length ∧
      (categorizeFrames exampleFrames).maxTimestamp ∈ exampleFrames.map Frame.timestamp ∧
      ∀ f ∈ exampleFrames,
        jsLeNum f.timestamp (categorizeFrames exampleFrames).maxTimestamp = true) :=
  categorizeFrames_partition exampleFrames (by decide)

/-! ## Transcript splitting (`splitTranscript`, `module.js` lines 75-103) -/

/-- Split a character list at every character satisfying `p`, keeping empty
pieces, as JavaScript `String.prototype.split` does with a single-character
separator: `splitWhen p [] = [[]]`, and each separator occurrence starts a
new piece. -/
def splitWhen (p : Char → Bool) : List Char → List (List Char)
  | [] => [[]]
  | c :: cs =>
    if p c then [] :: splitWhen p cs
    else
      match splitWhen p cs with
      | [] => [[c]]
      | w :: ws => (c :: w) :: ws

/-- Join pieces with a separator, as JavaScript `Array.prototype.join`. -/
def joinWith (sep : List Char) : List (List Char) → List Char
  | [] => []
  | [w] => w
  | w :: ws => w ++ sep ++ joinWith sep ws

/-- Source expression `transcript.split(" ")`. -/
def jsSplitSpace (s : List Char) : List (List Char) :=
  splitWhen (fun c => c == ' ') s

/-- The value returned by `splitTranscript`: five segment strings plus the
verbatim transcript under `general`. -/
structure Segments where
  opening : List Char
  setup : List Char
  main : List Char
  climax : List Char
  closing : List Char
  general : List Char
deriving DecidableEq, Repr

/-- Source expression `Math.floor((count / total) * words.length)`, computed over exact
rationals: for naturals this is exactly natural division `count * len / total`
(see `takeCount_eq_floor`), which is the executable form used here. -/
def takeCount (count total len : ℕ) : ℕ :=
  count * len / total

/-- The executable `takeCount` agrees with the source's floor formula over exact rationals. -/
theorem takeCount_eq_floor (count total len : ℕ) :
    takeCount count total len = ⌊((count : ℚ) / (total : ℚ)) * (len : ℚ)⌋₊ := by
  rw [takeCount, div_mul_eq_mul_div, ← Nat.cast_mul, Nat.floor_div_nat,
    Nat.floor_natCast]

/-- Source function `splitTranscript` (`module.js` lines 75-103): if the five bucket lengths
sum to 0, all segments are empty and `general` is the transcript; otherwise
the transcript is split on single spaces and each bucket receives
`floor((count / total) * words.length)` words at a running cursor, rejoined
with single spaces.  The five loop iterations are unrolled. -/
def splitTranscript (transcript : List Char) (categories : Categorized) : Segments :=
  let total := categories.opening.length + categories.setup.length +
    categories.main.length + categories.climax.length + categories.closing.length
  if total = 0 then ⟨[], [], [], [], [], transcript⟩
  else
    let words := jsSplitSpace transcript
    let t1 := takeCount categories.opening.length total words.length
    let s1 := joinWith [' '] ((words.drop 0).take t1)
    let c1 := 0 + t1
    let t2 := takeCount categories.setup.length total words.length
    let s2 := joinWith [' '] ((words.drop c1).take t2)
    let c2 := c1 + t2
    let t3 := takeCount categories.main.length total words.length
    let s3 := joinWith [' '] ((words.drop c2).take t3)
    let c3 := c2 + t3
    let t4 := takeCount categories.climax.length total words.length
    let s4 := joinWith [' '] ((words.drop c3).take t4)
    let c4 := c3 + t4
    let t5 := takeCount categories.closing.length total words.length
    let s5 := joinWith [' '] ((words.drop c4).take t5)
    ⟨s1, s2, s3, s4, s5, transcript⟩

/-- Whitespace characters, for the spec's notion of word tokenization. -/
def isWSChar (c : Char) : Bool :=
  c == ' ' || c == '\t' || c == '\n' || c == '\r'

/-- The spec's reference tokenization: split the transcript at whitespace
and keep only the non-empty tokens (maximal non-whitespace runs). -/
def wsWords (s : List Char) : List (List Char) :=
  (splitWhen isWSChar s).filter (fun w => !w.isEmpty)

/-- The cursor loop of the spec's reference algorithm for `splitTranscript`,
as a recursion over the list of bucket counts. -/
def refAlloc (words : List (List Char)) (total : ℕ) :
    ℕ → List ℕ → List (List Char)
  | _, [] => []
  | cursor, cnt :: rest =>
    let tk := takeCount cnt total words.length
    joinWith [' '] ((words.drop cursor).take tk) ::
      refAlloc words total (cursor + tk) rest

/-- The spec's reference algorithm for `splitTranscript` (C3): tokenize the
transcript into words by whitespace splitting, then allocate
`floor((count / total) * wordCount)` words per bucket at a running cursor in
the fixed bucket order, joining slices with single spaces; if `total = 0`
every segment is empty and `general` is the transcript verbatim. -/
def splitTranscriptSpec (transcript : List Char) (categories : Categorized) : Segments :=
  let counts := [categories.opening.length, categories.setup.length,
    categories.main.length, categories.climax.length, categories.closing.length]
  let total := categories.opening.length + categories.setup.length +
    categories.main.length + categories.climax.length + categories.closing.length
  if total = 0 then ⟨[], [], [], [], [], transcript⟩
  else
    match refAlloc (wsWords transcript) total 0 counts with
    | [s1, s2, s3, s4, s5] => ⟨s1, s2, s3, s4, s5, transcript⟩
    | _ => ⟨[], [], [], [], [], transcript⟩

/-- Like `splitTranscriptSpec`, but with the code's actual tokenization:
split on each single space character, keeping the empty tokens produced by
consecutive, leading or trailing spaces (the empty transcript yields one
empty token). -/
def splitTranscriptRef (transcript : List Char) (categories : Categorized) : Segments :=
  let counts := [categories.opening.length, categories.setup.length,
    categories.main.length, categories.climax.length, categories.closing.length]
  let total := categories.opening.length + categories.setup.length +
    categories.main.length + categories.climax.length + categories.closing.length
  if total = 0 then ⟨[], [], [], [], [], transcript⟩
  else
    match refAlloc (jsSplitSpace transcript) total 0 counts with
    | [s1, s2, s3, s4, s5] => ⟨s1, s2, s3, s4, s5, transcript⟩
    | _ => ⟨[], [], [], [], [], transcript⟩

/-- A categorization with exactly one frame, in the opening bucket; used as
a concrete input to the transcript splitter. -/
def oneOpeningCat : Categorized := ⟨[frame0], [], [], [], [], .fin 0⟩

/-- C3 counterexample: on the transcript `"a  b"` (two spaces) with one
opening frame, the code splits on single spaces keeping the empty token, so
the opening segment is `"a  b"` (3 tokens taken), while the spec's
whitespace tokenization yields words `["a", "b"]` and opening `"a b"` — the
two algorithms disagree. -/
theorem splitTranscript_ne_spec :
    splitTranscript ('a' :: ' ' :: ' ' :: 'b' :: []) oneOpeningCat ≠
      splitTranscriptSpec ('a' :: ' ' :: ' ' :: 'b' :: []) oneOpeningCat := by
  decide

/-- C3 (amended): `splitTranscript` equals the spec's reference algorithm
with the tokenization corrected to the code's actual one — split on each
single space character, keeping empty tokens (so consecutive, leading or
trailing spaces yield empty words and the empty transcript yields one empty
word); takes, cursor and joining are as the reference states. -/
theorem splitTranscript_eq_ref (transcript : List Char) (categories : Categorized) :
    splitTranscript transcript categories = splitTranscriptRef transcript categories := by
  unfold splitTranscript splitTranscriptRef
  by_cases h : categories.opening.length + categories.setup.length +
      categories.main.length + categories.climax.length + categories.closing.length = 0
  · rw [if_pos h, if_pos h]
  · rw [if_neg h, if_neg h]
    simp only [refAlloc]

/-! ## Word-count accounting for C4 -/

theorem splitWhen_ne_nil (p : Char → Bool) : ∀ s, splitWhen p s ≠ []
  | [] => by simp [splitWhen]
  | c :: cs => by
    by_cases h : p c
    · simp [splitWhen, h]
    · cases hr : splitWhen p cs with
      | nil => exact absurd hr (splitWhen_ne_nil p cs)
      | cons w ws => simp [splitWhen, h, hr]

/-- No piece produced by `splitWhen` contains a separator character. -/
theorem splitWhen_no_sep (p : Char → Bool) :
    ∀ s, ∀ w ∈ splitWhen p s, ∀ c ∈ w, p c = false
  | [] => by
    intro w hw c hc
    simp only [splitWhen, List.mem_singleton] at hw
    subst hw
    simp at hc
  | ch :: cs => by
    intro w hw c hc
    by_cases h : p ch
    · simp only [splitWhen, if_pos h] at hw
      rcases List.mem_cons.mp hw with rfl | hw'
      · simp at hc
      · exact splitWhen_no_sep p cs w hw' c hc
    · cases hr : splitWhen p cs with
      | nil => exact absurd hr (splitWhen_ne_nil p cs)
      | cons w0 ws =>
        simp only [splitWhen, if_neg h, hr] at hw
        rcases List.mem_cons.mp hw with rfl | hw'
        · rcases List.mem_cons.mp hc with rfl | hc'
          · simpa using h
          · exact splitWhen_no_sep p cs w0 (by rw [hr]; exact List.mem_cons_self w0 ws) c hc'
        · exact splitWhen_no_sep p cs w
            (by rw [hr]; exact List.mem_cons_of_mem w0 hw') c hc

/-- A separator-free string splits into itself alone. -/
theorem splitWhen_of_no_sep (p : Char → Bool) :
    ∀ w, (∀ c ∈ w, p c = false) → splitWhen p w = [w]
  | [] => fun _ => rfl
  | c :: cs => fun h => by
    have hc : p c = false := h c (List.mem_cons_self c cs)
    have ih := splitWhen_of_no_sep p cs (fun d hd => h d (List.mem_cons_of_mem c hd))
    simp [splitWhen, hc, ih]

/-- Splitting a separator-free piece followed by a separator peels off the
piece. -/
theorem splitWhen_append (p : Char → Bool) (sep : Char) (hsep : p sep = true) :
    ∀ w r, (∀ c ∈ w, p c = false) →
      splitWhen p (w ++ sep :: r) = w :: splitWhen p r
  | [], r => fun _ => by simp [splitWhen, hsep]
  | c :: cs, r => fun h => by
    have hc : p c = false := h c (List.mem_cons_self c cs)
    have ih := splitWhen_append p sep hsep cs r
      (fun d hd => h d (List.mem_cons_of_mem c hd))
    simp only [List.cons_append, List.append_eq, splitWhen, hc, Bool.false_eq_true,
      if_false, ih]

/-- Splitting the separator-join of non-empty token lists recovers the
tokens, provided no token contains the separator. -/
theorem splitWhen_joinWith (p : Char → Bool) (sep : Char) (hsep : p sep = true) :
    ∀ ts, ts ≠ [] → (∀ w ∈ ts, ∀ c ∈ w, p c = false) →
      splitWhen p (joinWith [sep] ts) = ts
  | [], h, _ => absurd rfl h
  | [w], _, hw => by
    rw [joinWith]
    exact splitWhen_of_no_sep p w (hw w (List.mem_cons_self w []))
  | w :: w' :: ts, _, hw => by
    have hj0 : joinWith [sep] (w :: w' :: ts) =
        w ++ [sep] ++ joinWith [sep] (w' :: ts) := rfl
    have hj : joinWith [sep] (w :: w' :: ts) = w ++ sep :: joinWith [sep] (w' :: ts) := by
      rw [hj0]
      simp
    have ih := splitWhen_joinWith p sep hsep (w' :: ts)
      (fun hEq => List.noConfusion hEq)
      (fun u hu => hw u (List.mem_cons_of_mem _ hu))
    rw [hj, splitWhen_append p sep hsep w _ (hw w (List.mem_cons_self _ _)), ih]

/-- Number of non-empty tokens in a token list. -/
def countNE (ls : List (List Char)) : ℕ :=
  (ls.filter (fun w => !w.isEmpty)).length

/-- The word count used in C4: the number of non-empty single-space-delimited
tokens of a string (empty segments count zero words). -/
def spaceWordCount (s : List Char) : ℕ :=
  countNE (jsSplitSpace s)

theorem countNE_append (a b : List (List Char)) :
    countNE (a ++ b) = countNE a + countNE b := by
  simp [countNE, List.filter_append]

theorem countNE_take_le (ws : List (List Char)) (n : ℕ) :
    countNE (ws.take n) ≤ countNE ws :=
  ((List.take_sublist n ws).filter _).length_le

/-- The word count of a single-space join of space-free tokens is the number
of non-empty tokens. -/
theorem spaceWordCount_joinWith (ts : List (List Char))
    (h : ∀ w ∈ ts, ∀ c ∈ w, (c == ' ') = false) :
    spaceWordCount (joinWith [' '] ts) = countNE ts := by
  cases ts with
  | nil => simp [spaceWordCount, joinWith, jsSplitSpace, splitWhen, countNE]
  | cons w ws =>
    rw [spaceWordCount, jsSplitSpace,
      splitWhen_joinWith _ ' ' (by decide) (w :: ws) (by simp) h]

/-- The five cursor-based slices of the splitter jointly form a prefix of the
word list, so their non-empty-token counts sum to at most the total. -/
theorem five_slice_countNE (ws : List (List Char)) (t1 t2 t3 t4 t5 : ℕ) :
    countNE ((ws.drop 0).take t1) + countNE ((ws.drop (0 + t1)).take t2) +
    countNE ((ws.drop (0 + t1 + t2)).take t3) +
    countNE ((ws.drop (0 + t1 + t2 + t3)).take t4) +
    countNE ((ws.drop (0 + t1 + t2 + t3 + t4)).take t5) ≤ countNE ws := by
  have e : ws.take (t1 + t2 + t3 + t4 + t5) =
      ws.take t1 ++ ((ws.drop t1).take t2 ++ ((ws.drop (t1 + t2)).take t3 ++
        ((ws.drop (t1 + t2 + t3)).take t4 ++ (ws.drop (t1 + t2 + t3 + t4)).take t5))) := by
    simp [List.take_add, List.append_assoc]
  calc countNE ((ws.drop 0).take t1) + countNE ((ws.drop (0 + t1)).take t2) +
      countNE ((ws.drop (0 + t1 + t2)).take t3) +
      countNE ((ws.drop (0 + t1 + t2 + t3)).take t4) +
      countNE ((ws.drop (0 + t1 + t2 + t3 + t4)).take t5)
      = countNE (ws.take (t1 + t2 + t3 + t4 + t5)) := by
        rw [e]
        simp only [List.drop_zero, Nat.zero_add, countNE_append]
        omega
    _ ≤ countNE ws := countNE_take_le ws _

/-- C4: for every transcript and categorization, the word counts of the five
segment strings produced by `splitTranscript` sum to at most the transcript's
word count, and `general` is the original transcript verbatim — on the
`total = 0` path as well. -/
theorem splitTranscript_wordCount (t : List Char) (cats : Categorized) :
    spaceWordCount (splitTranscript t cats).opening +
    spaceWordCount (splitTranscript t cats).setup +
    spaceWordCount (splitTranscript t cats).main +
    spaceWordCount (splitTranscript t cats).climax +
    spaceWordCount (splitTranscript t cats).closing ≤ spaceWordCount t ∧
    (splitTranscript t cats).general = t := by
  unfold splitTranscript
  by_cases h : cats.opening.length + cats.setup.length + cats.main.length +
      cats.climax.length + cats.closing.length = 0
  · rw [if_pos h]
    exact ⟨by simp [spaceWordCount, jsSplitSpace, splitWhen, countNE], rfl⟩
  · rw [if_neg h]
    refine ⟨?_, rfl⟩
    simp only []
    have hfree : ∀ w ∈ jsSplitSpace t, ∀ c ∈ w, (c == ' ') = false :=
      fun w hw => splitWhen_no_sep _ t w hw
    have hslice : ∀ cursor tk,
        spaceWordCount (joinWith [' '] (((jsSplitSpace t).drop cursor).take tk)) =
          countNE (((jsSplitSpace t).drop cursor).take tk) := by
      intro cursor tk
      refine spaceWordCount_joinWith _ (fun w hw => ?_)
      exact hfree w (List.mem_of_mem_drop (List.mem_of_mem_take hw))
    rw [hslice, hslice, hslice, hslice, hslice]
    exact five_slice_countNE (jsSplitSpace t) _ _ _ _ _

/-! ## JSON values and the result validators (`module.js` lines 141-174) -/

/-- A JavaScript value as relevant to the validators: `undefined`, `null`,
booleans, numbers, strings, arrays and plain objects (an object is a list of
string-keyed fields; lookup takes the first match). -/
inductive JSValue where
  | undefinedV : JSValue
  | null : JSValue
  | bool : Bool → JSValue
  | num : JSNum → JSValue
  | str : List Char → JSValue
  | arr : List JSValue → JSValue
  | obj : List (List Char × JSValue) → JSValue

/-- JavaScript truthiness: `undefined`, `null`, `false`, `0`, `NaN` and the
empty string are falsy; every object and array (and infinity) is truthy. -/
def truthy : JSValue → Bool
  | .undefinedV => false
  | .null => false
  | .bool b => b
  | .num (.fin q) => decide (q ≠ 0)
  | .num .nan => false
  | .num (.inf _) => true
  | .str s => !s.isEmpty
  | .arr _ => true
  | .obj _ => true

/-- First-match field lookup in an object field list. -/
def lookupField (k : List Char) : List (List Char × JSValue) → JSValue
  | [] => .undefinedV
  | (k', v) :: rest => if k' = k then v else lookupField k rest

/-- Property access `v.k` on a value that is not `null`/`undefined` (JS
returns `undefined` for absent fields and for fields of primitives). -/
def getField (v : JSValue) (k : List Char) : JSValue :=
  match v with
  | .obj fs => lookupField k fs
  | _ => .undefinedV

/-- Optional-chaining access `v?.k`: `undefined` when the base is
`null`/`undefined`, ordinary access otherwise; never throws. -/
def jsOptGet (v : JSValue) (k : List Char) : JSValue :=
  match v with
  | .null => .undefinedV
  | .undefinedV => .undefinedV
  | _ => getField v k

/-- Test `typeof v === "object"` (true for `null`, arrays and objects). -/
def typeofIsObject : JSValue → Bool
  | .null => true
  | .arr _ => true
  | .obj _ => true
  | _ => false

/-- Test `Array.isArray`. -/
def jsIsArray : JSValue → Bool
  | .arr _ => true
  | _ => false

def isNullV : JSValue → Bool
  | .null => true
  | _ => false

def isBoolV : JSValue → Bool
  | .bool _ => true
  | _ => false

def isStringV : JSValue → Bool
  | .str _ => true
  | _ => false

/-- Values list `Object.values(v)` for a (non-null, non-array) object. -/
def objValues : JSValue → List JSValue
  | .obj fs => fs.map Prod.snd
  | _ => []

/-- Source function `isAssessmentIndicator` (lines 141-145): `typeof obj !== "object"`, arrays
and `null` are rejected; otherwise every own value must be a boolean. -/
def isAssessmentIndicator (v : JSValue) : Bool :=
  if !typeofIsObject v || jsIsArray v || isNullV v then false
  else (objValues v).all isBoolV

def keyRecomendations : List Char := "recomendations".toList
def keyIndicators : List Char := "assessmentIndicators".toList
def keyOpening : List Char := "opening".toList
def keySetup : List Char := "setup".toList
def keyMain : List Char := "main".toList
def keyClimax : List Char := "climax".toList
def keyClosing : List Char := "closing".toList
def keyGeneral : List Char := "general".toList
def keySummary : List Char := "summary".toList

/-- Source function `isResultItem` (lines 150-157): `obj` truthy, `obj.recomendations` an
array of strings, and `isAssessmentIndicator(obj.assessmentIndicators)`.
The source returns the first falsy conjunct or the final boolean; the model
returns its truthiness. -/
def isResultItem (v : JSValue) : Bool :=
  truthy v &&
    (match getField v keyRecomendations with
      | .arr xs => xs.all isStringV
      | _ => false) &&
    isAssessmentIndicator (getField v keyIndicators)

/-- Source function `isOpenAIResponseResult` (lines 162-174): `obj` truthy, the five segment
fields (accessed with `?.`) pass `isResultItem`, `obj?.general` truthy and a
`ResultItem`, and `obj?.general?.summary` a string. -/
def isOpenAIResponseResult (v : JSValue) : Bool :=
  truthy v &&
    isResultItem (jsOptGet v keyOpening) &&
    isResultItem (jsOptGet v keySetup) &&
    isResultItem (jsOptGet v keyMain) &&
    isResultItem (jsOptGet v keyClimax) &&
    isResultItem (jsOptGet v keyClosing) &&
    truthy (jsOptGet v keyGeneral) &&
    isResultItem (jsOptGet v keyGeneral) &&
    isStringV (jsOptGet (jsOptGet v keyGeneral) keySummary)

/-- The spec's phrasing of the indicator shape check (§4.5): a non-array,
non-null object/mapping whose every value is boolean (emptiness allowed). -/
def isAssessmentIndicatorSpec : JSValue → Bool
  | .obj fs => fs.all (fun p => isBoolV p.2)
  | _ => false

/-- The spec's phrasing of the item shape check (§4.5): `x.recomendations`
is an array of strings and the indicator check holds of
`x.assessmentIndicators`. -/
def isResultItemSpec (v : JSValue) : Bool :=
  (match getField v keyRecomendations with
    | .arr xs => xs.all isStringV
    | _ => false) &&
  isAssessmentIndicatorSpec (getField v keyIndicators)

/-- The spec's phrasing of the document shape check (§4.5): all five segment
fields pass the item check, and `general` passes the item check and has a
string `summary` field. -/
def isAssessmentDocumentSpec (v : JSValue) : Bool :=
  isResultItemSpec (getField v keyOpening) &&
  isResultItemSpec (getField v keySetup) &&
  isResultItemSpec (getField v keyMain) &&
  isResultItemSpec (getField v keyClimax) &&
  isResultItemSpec (getField v keyClosing) &&
  isResultItemSpec (getField v keyGeneral) &&
  isStringV (getField (getField v keyGeneral) keySummary)

/-- The item `{recomendations: [], assessmentIndicators: {}}`. -/
def emptyResultItem : JSValue :=
  .obj [(keyRecomendations, .arr []), (keyIndicators, .obj [])]

theorem all_map_snd (fs : List (List Char × JSValue)) :
    (fs.map Prod.snd).all isBoolV = fs.all (fun p => isBoolV p.2) := by
  induction fs with
  | nil => rfl
  | cons p ps ih => simp [ih]

theorem isAssessmentIndicator_eq_spec (v : JSValue) :
    isAssessmentIndicator v = isAssessmentIndicatorSpec v := by
  cases v <;>
    simp [isAssessmentIndicator, isAssessmentIndicatorSpec, typeofIsObject,
      jsIsArray, isNullV, objValues, all_map_snd]

/-- Optional chaining agrees with the total field access everywhere (plain
access on `null`/`undefined` throws instead; see `getFieldThrow`). -/
theorem jsOptGet_eq_getField (v : JSValue) (k : List Char) :
    jsOptGet v k = getField v k := by
  cases v <;> rfl

theorem isResultItem_eq_spec (v : JSValue) :
    isResultItem v = isResultItemSpec v := by
  cases v with
  | obj fs =>
    simp only [isResultItem, isResultItemSpec, isAssessmentIndicator_eq_spec,
      truthy, Bool.true_and]
  | _ =>
    simp [isResultItem, isResultItemSpec, truthy, getField,
      isAssessmentIndicator_eq_spec, isAssessmentIndicatorSpec]

theorem truthy_of_isResultItem (g : JSValue) (h : isResultItem g = true) :
    truthy g = true := by
  rw [isResultItem] at h
  simp only [Bool.and_eq_true] at h
  exact h.1.1

theorem isOpenAIResponseResult_eq_spec (v : JSValue) :
    isOpenAIResponseResult v = isAssessmentDocumentSpec v := by
  have hred : ∀ g : JSValue, (truthy g && isResultItem g) = isResultItem g := by
    intro g
    cases hg : isResultItem g with
    | false => cases htr : truthy g <;> simp
    | true => simp [truthy_of_isResultItem g hg]
  cases v with
  | undefinedV => rfl
  | null => rfl
  | bool b =>
    cases b <;>
      simp [isOpenAIResponseResult, isAssessmentDocumentSpec, truthy, jsOptGet,
        getField, isResultItem, isResultItemSpec, isAssessmentIndicator,
        isAssessmentIndicatorSpec, typeofIsObject, jsIsArray, isNullV]
  | num n =>
    cases n <;>
      simp [isOpenAIResponseResult, isAssessmentDocumentSpec, truthy, jsOptGet,
        getField, isResultItem, isResultItemSpec, isAssessmentIndicator,
        isAssessmentIndicatorSpec, typeofIsObject, jsIsArray, isNullV]
  | str s =>
    by_cases hs : s.isEmpty <;>
      simp [isOpenAIResponseResult, isAssessmentDocumentSpec, truthy, hs, jsOptGet,
        getField, isResultItem, isResultItemSpec, isAssessmentIndicator,
        isAssessmentIndicatorSpec, typeofIsObject, jsIsArray, isNullV]
  | arr xs =>
    simp [isOpenAIResponseResult, isAssessmentDocumentSpec, truthy, jsOptGet,
      getField, isResultItem, isResultItemSpec, isAssessmentIndicator,
      isAssessmentIndicatorSpec, typeofIsObject, jsIsArray, isNullV]
  | obj fs =>
    have hgen : isResultItemSpec (getField (JSValue.obj fs) keyGeneral) = true →
        truthy (getField (JSValue.obj fs) keyGeneral) = true := by
      intro h6
      exact truthy_of_isResultItem _ (by rw [isResultItem_eq_spec]; exact h6)
    rw [Bool.eq_iff_iff]
    simp only [isOpenAIResponseResult, isAssessmentDocumentSpec, jsOptGet_eq_getField,
      isResultItem_eq_spec, Bool.and_eq_true]
    constructor
    · rintro ⟨⟨⟨⟨⟨⟨⟨⟨-, h1⟩, h2⟩, h3⟩, h4⟩, h5⟩, -⟩, h6⟩, h7⟩
      exact ⟨⟨⟨⟨⟨⟨h1, h2⟩, h3⟩, h4⟩, h5⟩, h6⟩, h7⟩
    · rintro ⟨⟨⟨⟨⟨⟨h1, h2⟩, h3⟩, h4⟩, h5⟩, h6⟩, h7⟩
      exact ⟨⟨⟨⟨⟨⟨⟨⟨rfl, h1⟩, h2⟩, h3⟩, h4⟩, h5⟩, hgen h6⟩, h6⟩, h7⟩

/-- C5: the three validators are exactly the spec's shape predicates, and the
all-empty item `{recomendations: [], assessmentIndicators: {}}` passes
`isResultItem`. -/
theorem validators_eq_spec (v : JSValue) :
    isAssessmentIndicator v = isAssessmentIndicatorSpec v ∧
    isResultItem v = isResultItemSpec v ∧
    isOpenAIResponseResult v = isAssessmentDocumentSpec v ∧
    isResultItem emptyResultItem = true :=
  ⟨isAssessmentIndicator_eq_spec v, isResultItem_eq_spec v,
    isOpenAIResponseResult_eq_spec v, by decide⟩

/-! ## Exception-aware evaluation of the validators (C6)

In the source, the only operations that can throw inside the validators are
property accesses on `null`/`undefined` and method calls on values lacking
the method; the following definitions evaluate the same expressions with
those exception points made explicit in an `Except` result. -/

def exceptionMsg : List Char := "TypeError".toList

/-- Plain (non-optional) property access `v.k`: throws on `null` and
`undefined`, otherwise yields the field value. -/
def getFieldThrow (v : JSValue) (k : List Char) : Except (List Char) JSValue :=
  match v with
  | .null => .error exceptionMsg
  | .undefinedV => .error exceptionMsg
  | _ => .ok (getField v k)

/-- Evaluation of `isAssessmentIndicator` with exception points explicit: the `typeof`,
`Array.isArray` and `null` tests never throw, and `Object.values` is only
reached on a non-null object. -/
def isAssessmentIndicatorThrow (v : JSValue) : Except (List Char) Bool :=
  if !typeofIsObject v || jsIsArray v || isNullV v then .ok false
  else .ok ((objValues v).all isBoolV)

/-- Evaluation of `isResultItem` with exception points explicit: the `obj &&` guard
short-circuits before any property access; `obj.recomendations` is read
twice in the source (for `Array.isArray` and for `.every`) with the same
result, modelled as one access; `.every` runs only after the array check
passes. -/
def isResultItemThrow (v : JSValue) : Except (List Char) Bool :=
  if truthy v = false then .ok false
  else
    match getFieldThrow v keyRecomendations with
    | .error e => .error e
    | .ok r =>
      match r with
      | .arr xs =>
        if xs.all isStringV = false then .ok false
        else
          match getFieldThrow v keyIndicators with
          | .error e => .error e
          | .ok a => isAssessmentIndicatorThrow a
      | _ => .ok false

/-- Evaluation of `isOpenAIResponseResult` with exception points explicit: all property
accesses use optional chaining (never throw); the conjunction evaluates left
to right with short-circuiting. -/
def isOpenAIResponseResultThrow (v : JSValue) : Except (List Char) Bool :=
  if truthy v = false then .ok false
  else
    match isResultItemThrow (jsOptGet v keyOpening) with
    | .error e => .error e
    | .ok b1 =>
      if b1 = false then .ok false
      else
        match isResultItemThrow (jsOptGet v keySetup) with
        | .error e => .error e
        | .ok b2 =>
          if b2 = false then .ok false
          else
            match isResultItemThrow (jsOptGet v keyMain) with
            | .error e => .error e
            | .ok b3 =>
              if b3 = false then .ok false
              else
                match isResultItemThrow (jsOptGet v keyClimax) with
                | .error e => .error e
                | .ok b4 =>
                  if b4 = false then .ok false
                  else
                    match isResultItemThrow (jsOptGet v keyClosing) with
                    | .error e => .error e
                    | .ok b5 =>
                      if b5 = false then .ok false
                      else
                        if truthy (jsOptGet v keyGeneral) = false then .ok false
                        else
                          match isResultItemThrow (jsOptGet v keyGeneral) with
                          | .error e => .error e
                          | .ok b6 =>
                            if b6 = false then .ok false
                            else .ok (isStringV (jsOptGet (jsOptGet v keyGeneral) keySummary))

theorem getFieldThrow_ok (v : JSValue) (k : List Char) (h : truthy v = true) :
    getFieldThrow v k = .ok (getField v k) := by
  cases v <;> first | rfl | simp [truthy] at h

theorem indicatorThrow_ok (v : JSValue) :
    isAssessmentIndicatorThrow v = .ok (isAssessmentIndicator v) := by
  rw [isAssessmentIndicatorThrow, isAssessmentIndicator]
  split <;> rfl

theorem resultItemThrow_ok (v : JSValue) :
    isResultItemThrow v = .ok (isResultItem v) := by
  cases htr : truthy v with
  | false => simp [isResultItemThrow, isResultItem, htr]
  | true =>
    rw [isResultItemThrow, if_neg (by simp [htr]), getFieldThrow_ok v _ htr]
    cases hr : getField v keyRecomendations with
    | arr xs =>
      cases hall : xs.all isStringV with
      | false =>
        simp only [isResultItem, htr, hr, hall, Bool.true_and, Bool.false_and]
        simp
      | true =>
        simp only [isResultItem, htr, hr, hall, Bool.true_and,
          getFieldThrow_ok v _ htr, indicatorThrow_ok]
        simp
    | _ => simp [isResultItem, htr, hr]

theorem docThrow_ok (v : JSValue) :
    isOpenAIResponseResultThrow v = .ok (isOpenAIResponseResult v) := by
  cases htr : truthy v with
  | false => simp [isOpenAIResponseResultThrow, isOpenAIResponseResult, htr]
  | true =>
    cases hb1 : isResultItem (jsOptGet v keyOpening) with
    | false =>
      simp [isOpenAIResponseResultThrow, isOpenAIResponseResult, htr,
        resultItemThrow_ok, hb1]
    | true =>
      cases hb2 : isResultItem (jsOptGet v keySetup) with
      | false =>
        simp [isOpenAIResponseResultThrow, isOpenAIResponseResult, htr,
          resultItemThrow_ok, hb1, hb2]
      | true =>
        cases hb3 : isResultItem (jsOptGet v keyMain) with
        | false =>
          simp [isOpenAIResponseResultThrow, isOpenAIResponseResult, htr,
            resultItemThrow_ok, hb1, hb2, hb3]
        | true =>
          cases hb4 : isResultItem (jsOptGet v keyClimax) with
          | false =>
            simp [isOpenAIResponseResultThrow, isOpenAIResponseResult, htr,
              resultItemThrow_ok, hb1, hb2, hb3, hb4]
          | true =>
            cases hb5 : isResultItem (jsOptGet v keyClosing) with
            | false =>
              simp [isOpenAIResponseResultThrow, isOpenAIResponseResult, htr,
                resultItemThrow_ok, hb1, hb2, hb3, hb4, hb5]
            | true =>
              cases htg : truthy (jsOptGet v keyGeneral) with
              | false =>
                simp [isOpenAIResponseResultThrow, isOpenAIResponseResult, htr,
                  resultItemThrow_ok, hb1, hb2, hb3, hb4, hb5, htg]
              | true =>
                cases hb6 : isResultItem (jsOptGet v keyGeneral) <;>
                  simp [isOpenAIResponseResultThrow, isOpenAIResponseResult, htr,
                    resultItemThrow_ok, hb1, hb2, hb3, hb4, hb5, htg, hb6]

/-- C6: for every input value whatsoever, the three validators evaluate
without reaching any exception point, terminate, and return the value of the
corresponding total boolean function — their results depend only on the
structure of the input (all definitions here are pure functions). -/
theorem validators_never_throw (v : JSValue) :
    isAssessmentIndicatorThrow v = .ok (isAssessmentIndicator v) ∧
    isResultItemThrow v = .ok (isResultItem v) ∧
    isOpenAIResponseResultThrow v = .ok (isOpenAIResponseResult v) :=
  ⟨indicatorThrow_ok v, resultItemThrow_ok v, docThrow_ok v⟩

/-! ## Extraction settings (C10; `module.js` lines 266-270)

The route passes `req.body.interval/format/quality` to
`extractAndUploadFrames`; with a multipart form these are text fields, so
each is a string or absent (`undefined`). -/

def allDigits (s : List Char) : Bool := s.all (fun c => c.isDigit)

def natOfDigits (s : List Char) : ℕ :=
  s.foldl (fun a c => 10 * a + (c.toNat - 48)) 0

/-- JavaScript `Number(string)` on the decimal subset relevant here: the
string is trimmed; the empty string is 0; an optional sign followed by
decimal digits with an optional fractional part parses exactly; anything
else (including the inputs the claims concern, such as `"abc"`) is `NaN`.
(Exponent, hex and `"Infinity"` forms are outside the modelled subset.) -/
def jsStrToNumber (s : List Char) : JSNum :=
  let t := ((s.dropWhile isWSChar).reverse.dropWhile isWSChar).reverse
  if t.isEmpty then .fin 0
  else
    let sgn : Int := if t.headD ' ' = '-' then -1 else 1
    let u := if t.headD ' ' = '-' || t.headD ' ' = '+' then t.tail else t
    match splitWhen (fun c => c == '.') u with
    | [ip] =>
      if !ip.isEmpty && allDigits ip then .fin (mkRat (sgn * natOfDigits ip) 1)
      else .nan
    | [ip, fp] =>
      if (!ip.isEmpty || !fp.isEmpty) && allDigits ip && allDigits fp then
        .fin (mkRat (sgn * (natOfDigits ip * 10 ^ fp.length + natOfDigits fp))
          (10 ^ fp.length))
      else .nan
    | _ => .nan

/-- Coercion `Number(x)` for a multipart text field: `undefined` coerces to `NaN`,
a string parses as above. -/
def coerceSetting : Option (List Char) → JSNum
  | none => .nan
  | some s => jsStrToNumber s

/-- Truthiness of a JavaScript number: `0` and `NaN` are falsy. -/
def truthyNum : JSNum → Bool
  | .fin q => decide (q ≠ 0)
  | .nan => false
  | .inf _ => true

/-- The `usedSettings` object (lines 266-270): `Number(settings.interval) ||
0.8`, `settings.format || "jpeg"`, `Number(settings.quality) || 0.8`.
`mkRat 4 5` is the exact value of the source's `0.8` literal. -/
structure UsedSettings where
  interval : JSNum
  format : List Char
  quality : JSNum
deriving DecidableEq, Repr

def usedSettingsOf (interval format quality : Option (List Char)) : UsedSettings where
  interval := if truthyNum (coerceSetting interval) then coerceSetting interval
    else .fin (mkRat 4 5)
  format := match format with
    | some f => if !f.isEmpty then f else "jpeg".toList
    | none => "jpeg".toList
  quality := if truthyNum (coerceSetting quality) then coerceSetting quality
    else .fin (mkRat 4 5)

/-- C10: whenever a request-supplied extraction setting coerces to a falsy
number (absent field, `"0"`, empty string, non-numeric string, ...), the
defaults are silently substituted (interval `0.8`, format `"jpeg"`, quality
`0.8`); consequently the effective interval used for timestamp computation
is never `0` and never `NaN` (and likewise for quality). -/
theorem usedSettings_defaults (i f q : Option (List Char)) :
    (usedSettingsOf i f q).interval ≠ .fin 0 ∧
    (usedSettingsOf i f q).interval ≠ .nan ∧
    (usedSettingsOf i f q).quality ≠ .fin 0 ∧
    (usedSettingsOf i f q).quality ≠ .nan ∧
    (truthyNum (coerceSetting i) = false →
      (usedSettingsOf i f q).interval = .fin (mkRat 4 5)) ∧
    (truthyNum (coerceSetting q) = false →
      (usedSettingsOf i f q).quality = .fin (mkRat 4 5)) ∧
    ((f = none ∨ f = some []) → (usedSettingsOf i f q).format = "jpeg".toList) := by
  refine ⟨?_, ?_, ?_, ?_, ?_, ?_, ?_⟩
  · simp only [usedSettingsOf]
    cases hti : truthyNum (coerceSetting i) with
    | false => simp
    | true =>
      simp only [if_pos]
      cases hc : coerceSetting i with
      | fin r =>
        rw [hc] at hti
        simp only [truthyNum, decide_eq_true_eq] at hti
        simp [hti]
      | nan => simp
      | inf s => simp
  · simp only [usedSettingsOf]
    cases hti : truthyNum (coerceSetting i) with
    | false => simp
    | true =>
      simp only [if_pos]
      cases hc : coerceSetting i with
      | fin r => simp
      | nan => rw [hc] at hti; simp [truthyNum] at hti
      | inf s => simp
  · simp only [usedSettingsOf]
    cases htq : truthyNum (coerceSetting q) with
    | false => simp
    | true =>
      simp only [if_pos]
      cases hc : coerceSetting q with
      | fin r =>
        rw [hc] at htq
        simp only [truthyNum, decide_eq_true_eq] at htq
        simp [htq]
      | nan => simp
      | inf s => simp
  · simp only [usedSettingsOf]
    cases htq : truthyNum (coerceSetting q) with
    | false => simp
    | true =>
      simp only [if_pos]
      cases hc : coerceSetting q with
      | fin r => simp
      | nan => rw [hc] at htq; simp [truthyNum] at htq
      | inf s => simp
  · intro h; simp [usedSettingsOf, h]
  · intro h; simp [usedSettingsOf, h]
  · rintro (rfl | rfl) <;> simp [usedSettingsOf]

/-- Witness for C10 at concrete falsy inputs: `interval = "0"`,
`format = ""`, `quality = "abc"` all fall back to the defaults. -/
theorem usedSettings_defaults_witness :
    (usedSettingsOf (some "0".toList) (some []) (some "abc".toList)).interval =
        .fin (mkRat 4 5) ∧
    (usedSettingsOf (some "0".toList) (some []) (some "abc".toList)).quality =
        .fin (mkRat 4 5) ∧
    (usedSettingsOf (some "0".toList) (some []) (some "abc".toList)).format =
        "jpeg".toList :=
  ⟨(usedSettings_defaults (some "0".toList) (some []) (some "abc".toList)).2.2.2.2.1
      (by decide),
    (usedSettings_defaults (some "0".toList) (some []) (some "abc".toList)).2.2.2.2.2.1
      (by decide),
    (usedSettings_defaults (some "0".toList) (some []) (some "abc".toList)).2.2.2.2.2.2
      (Or.inr rfl)⟩

/-! ## The `/api/main` pipeline (`module.js` lines 180-481)

External collaborators (ffmpeg, ffprobe, Cloudinary uploads, fetch, Whisper
transcription, the chat completion calls, and the Prisma `create`) are
inputs of the model, as `Except` results in an environment record.  The
local file system is the list of existing paths (the pre-existing `temp`
scratch directory itself is not tracked; the per-invocation temp artifacts
and the uploaded file are).  `Date.now()`-based fresh names are modelled as
fixed per-invocation paths.  A log records each collaborator invocation.
`Promise.all` pairs are modelled sequentially: both branches run to
completion and the first branch's failure takes precedence; the branches
touch disjoint paths so the file-system outcome is interleaving-independent.
Prompt strings (`buildPrompt`, the summary prompt) are pure string building
with no effect on any claim and are not passed to the completion
collaborator in the model. -/

/-- Fields of a Cloudinary upload result used by the source. -/
structure UploadRes where
  secureUrl : List Char
  publicId : List Char
  format : List Char
  bytes : ℚ
deriving Repr

/-- Fields of the audio `ffprobe` result used by lines 205-215, already
extracted from the stream list (numeric fields pre-coerced). -/
structure AudioProbe where
  duration : ℚ
  sampleRate : Option ℚ
  channels : Option ℚ
  channelLayout : Option (List Char)
deriving Repr

/-- Fields of the video `ffprobe` result used by lines 257-261; the
"no video stream" case is an `Except.error` of the collaborator. -/
structure VideoProbe where
  duration : ℚ
  width : ℚ
  height : ℚ
deriving Repr

/-- The object returned by `extractAndUploadAudio` (lines 228-237).  The
returned literal has no `transcript` property, so `transcript` is always
`none` (`audioData.transcript` reads `undefined` at line 375). -/
structure AudioData where
  url : List Char
  name : List Char
  format : List Char
  size : ℚ
  duration : ℚ
  sampleRate : Option ℚ
  channels : Option ℚ
  channelLayout : Option (List Char)
  transcript : Option (List Char)
deriving Repr

/-- The `videoFile` object of the frames result (lines 318-326). -/
structure VideoFile where
  url : Option (List Char)
  duration : ℚ
  width : ℚ
  height : ℚ
  format : List Char
  size : ℚ
  name : List Char
deriving Repr

/-- The value returned by `extractAndUploadFrames` (lines 316-328). -/
structure FramesData where
  frames : List Frame
  videoFile : VideoFile
  settings : UsedSettings
deriving Repr

/-- The payload persisted as the record's `result` column and returned to
the caller: `{ result, audio: audioData, frames: categories }` (line 465). -/
structure Payload where
  result : JSValue
  audio : AudioData
  frames : Categorized

/-- Collaborator invocations, for the call log. -/
inductive Stage where
  | hashS | lookupS | audioS | framesS | fetchS | transcribeS
  | gptS : Fin 6 → Stage
  | createS
deriving DecidableEq, Repr

/-- Pipeline state: existing file paths, the ResultCache contents, and the
collaborator call log. -/
structure St where
  files : List (List Char)
  cache : List (List Char × Payload)
  log : List Stage

/-- One invocation's collaborator outcomes. -/
structure Env where
  ffmpegAudio : Except (List Char) Unit
  ffprobeAudio : Except (List Char) AudioProbe
  uploadAudio : Except (List Char) UploadRes
  ffprobeVideo : Except (List Char) VideoProbe
  ffmpegFrames : Except (List Char) (List (List Char))
  uploadFrame : ℕ → List Char → Except (List Char) UploadRes
  fetchAudio : Except (List Char) Unit
  transcribe : Except (List Char) (List Char)
  gpt : Fin 6 → Except (List Char) JSValue
  createOk : Bool

/-- The request: the staged upload (`req.file`) and the body's extraction
settings (multipart text fields: strings or absent). -/
structure Req where
  path : List Char
  bytes : List Char
  filename : List Char
  mimetype : List Char
  fsize : ℚ
  interval : Option (List Char)
  imageFormat : Option (List Char)
  quality : Option (List Char)

def mkFile (p : List Char) (st : St) : St :=
  if p ∈ st.files then st else { st with files := p :: st.files }

def unlinkFile (p : List Char) (st : St) : St :=
  { st with files := st.files.filter (fun q => decide (q ≠ p)) }

def addStage (s : Stage) (st : St) : St := { st with log := st.log ++ [s] }

def addStages (l : List Stage) (st : St) : St := { st with log := st.log ++ l }

/-- Lookup `prisma.data.findUnique` by identifier. -/
def lookupCache (k : List Char) : List (List Char × Payload) → Option Payload
  | [] => none
  | (k', p) :: rest => if k' = k then some p else lookupCache k rest

def tempAudioPath : List Char := "temp/audio.wav".toList
def tempFramesDir : List Char := "temp/frames".toList
def framePath (n : List Char) : List Char := tempFramesDir ++ ('/' :: n)
def audioTempPath : List Char := "temp/audio-temp.wav".toList

/-- Source function `extractAndUploadAudio` (lines 180-238): extract audio to a temp wav,
probe it, upload it, then unlink the temp wav.  A failure at any step
returns before the unlink. -/
def extractAndUploadAudioM (env : Env) (st0 : St) :
    Except (List Char) AudioData × St :=
  let st1 := addStage .audioS st0
  match env.ffmpegAudio with
  | .error e => (.error e, st1)
  | .ok _ =>
    let st2 := mkFile tempAudioPath st1
    match env.ffprobeAudio with
    | .error e => (.error e, st2)
    | .ok probe =>
      match env.uploadAudio with
      | .error e => (.error e, st2)
      | .ok up =>
        let st3 := unlinkFile tempAudioPath st2
        let ch : Option ℚ := match probe.channels with
          | some c => if c = 0 then none else some c
          | none => none
        (.ok { url := up.secureUrl, name := up.publicId, format := up.format,
               size := up.bytes, duration := probe.duration,
               sampleRate := probe.sampleRate, channels := ch,
               channelLayout := match probe.channelLayout with
                 | some l => some l
                 | none => match ch with
                   | some c => if c = 2 then some "stereo".toList
                     else if c = 1 then some "mono".toList else none
                   | none => none,
               transcript := none }, st3)

/-- The `files.map(...)` upload loop of `extractAndUploadFrames` (lines
290-306): each frame file is uploaded once; the built frame has
`id = "frame-" + idx`, `timestamp = idx * interval`.  `Promise.all` fails
with the first rejection. -/
def uploadFramesList (env : Env) (used : UsedSettings) :
    List (List Char) → ℕ → Except (List Char) (List Frame)
  | [], _ => .ok []
  | f :: fs, idx =>
    match env.uploadFrame idx f with
    | .error e => .error e
    | .ok up =>
      match uploadFramesList env used fs (idx + 1) with
      | .error e => .error e
      | .ok rest =>
        .ok ({ id := "frame-".toList ++ Nat.toDigits 10 idx,
               timestamp := jsMul (.fin idx) used.interval,
               url := up.secureUrl, size := up.bytes } :: rest)

/-- Source function `extractAndUploadFrames` (lines 244-329): make the temp frames dir,
probe the video, compute `usedSettings`, extract frames (the extractor
reports the produced file names), upload the files whose name ends in the
configured format, then unlink those files and `rmdirSync` the directory —
which throws if non-matching files remain in it. -/
def extractAndUploadFramesM (env : Env) (req : Req) (st0 : St) :
    Except (List Char) FramesData × St :=
  let st1 := addStage .framesS st0
  let st2 := mkFile tempFramesDir st1
  match env.ffprobeVideo with
  | .error e => (.error e, st2)
  | .ok probe =>
    let used := usedSettingsOf req.interval req.imageFormat req.quality
    match env.ffmpegFrames with
    | .error e => (.error e, st2)
    | .ok names =>
      let st3 := names.foldl (fun s n => mkFile (framePath n) s) st2
      let files := names.filter (fun n => used.format.isSuffixOf n)
      match uploadFramesList env used files 0 with
      | .error e => (.error e, st3)
      | .ok frames =>
        let st4 := files.foldl (fun s n => unlinkFile (framePath n) s) st3
        let vf : VideoFile :=
          { url := none, duration := probe.duration, width := probe.width,
            height := probe.height, format := req.mimetype, size := req.fsize,
            name := req.filename }
        if (st4.files.filter
            (fun p => (tempFramesDir ++ ['/']).isPrefixOf p)).isEmpty then
          (.ok { frames := frames, videoFile := vf, settings := used },
            unlinkFile tempFramesDir st4)
        else (.error "ENOTEMPTY".toList, st4)

/-- Steps 3-7 of the route (lines 393-473): categorize frames, split the
transcript, run the five segment completions concurrently (all invoked;
first failure, in bucket order, propagates), then the summary completion,
validate the assembled document, and on success create the cache record. -/
def evalStages (env : Env) (identifier : List Char) (audioData : AudioData)
    (framesData : FramesData) (transcript : List Char) (st0 : St) :
    Except (List Char) Payload × St :=
  let categories := categorizeFrames framesData.frames
  let _segs := splitTranscript transcript categories
  let st1 := addStages [.gptS 0, .gptS 1, .gptS 2, .gptS 3, .gptS 4] st0
  match env.gpt 0 with
  | .error e => (.error e, st1)
  | .ok opening =>
    match env.gpt 1 with
    | .error e => (.error e, st1)
    | .ok setup =>
      match env.gpt 2 with
      | .error e => (.error e, st1)
      | .ok mainV =>
        match env.gpt 3 with
        | .error e => (.error e, st1)
        | .ok climax =>
          match env.gpt 4 with
          | .error e => (.error e, st1)
          | .ok closing =>
            let st2 := addStage (.gptS 5) st1
            match env.gpt 5 with
            | .error e => (.error e, st2)
            | .ok general =>
              let result := JSValue.obj [(keyGeneral, general),
                (keyOpening, opening), (keySetup, setup), (keyMain, mainV),
                (keyClimax, climax), (keyClosing, closing)]
              if isOpenAIResponseResult result = false then
                (.error "Invalid result structure from OpenAI".toList, st2)
              else
                let st3 := addStage .createS st2
                if env.createOk then
                  let payload : Payload :=
                    { result := result, audio := audioData, frames := categories }
                  (.ok payload, { st3 with cache := (identifier, payload) :: st3.cache })
                else (.error "db".toList, st3)

/-- The body of the `try` block (lines 340-473): hash, cache lookup (on hit
unlink the upload and return the stored payload), concurrent audio/frames
extraction, upload unlink, transcription fallback (always taken, since the
audio result never carries a transcript), then `evalStages`. -/
def runBody (hash : List Char → List Char) (env : Env) (req : Req) (st0 : St) :
    Except (List Char) Payload × St :=
  let identifier := hash req.bytes
  let st1 := addStage .lookupS (addStage .hashS st0)
  match lookupCache identifier st1.cache with
  | some payload => (.ok payload, unlinkFile req.path st1)
  | none =>
    match extractAndUploadAudioM env st1 with
    | (.error e, st2) =>
      let (_, st3) := extractAndUploadFramesM env req st2
      (.error e, st3)
    | (.ok audioData, st2) =>
      match extractAndUploadFramesM env req st2 with
      | (.error e, st3) => (.error e, st3)
      | (.ok framesData, st3) =>
        let st4 := unlinkFile req.path st3
        match audioData.transcript with
        | some t => evalStages env identifier audioData framesData t st4
        | none =>
          let st5 := addStage .fetchS st4
          match env.fetchAudio with
          | .error e => (.error e, st5)
          | .ok _ =>
            let st6 := mkFile audioTempPath st5
            let st7 := addStage .transcribeS st6
            match env.transcribe with
            | .error e => (.error e, st7)
            | .ok t =>
              let st8 := unlinkFile audioTempPath st7
              evalStages env identifier audioData framesData t st8

/-- The whole route handler: the `catch` block (lines 474-480) unlinks the
uploaded file on any failure and reports a single terminal error. -/
def runMain (hash : List Char → List Char) (env : Env) (req : Req) (st0 : St) :
    Except (List Char) Payload × St :=
  match runBody hash env req st0 with
  | (.ok p, st) => (.ok p, st)
  | (.error e, st) => (.error e, unlinkFile req.path st)

/-! ## State-effect lemmas for the pipeline model -/

theorem mkFile_cache (p : List Char) (st : St) : (mkFile p st).cache = st.cache := by
  rw [mkFile]; split <;> rfl

theorem mkFile_log (p : List Char) (st : St) : (mkFile p st).log = st.log := by
  rw [mkFile]; split <;> rfl

theorem unlinkFile_cache (p : List Char) (st : St) :
    (unlinkFile p st).cache = st.cache := rfl

theorem unlinkFile_log (p : List Char) (st : St) :
    (unlinkFile p st).log = st.log := rfl

theorem addStage_cache (s : Stage) (st : St) : (addStage s st).cache = st.cache := rfl

theorem addStage_files (s : Stage) (st : St) : (addStage s st).files = st.files := rfl

theorem addStages_cache (l : List Stage) (st : St) :
    (addStages l st).cache = st.cache := rfl

theorem addStages_files (l : List Stage) (st : St) :
    (addStages l st).files = st.files := rfl

theorem foldl_mkFile_cache (ns : List (List Char)) :
    ∀ st : St, (ns.foldl (fun s n => mkFile (framePath n) s) st).cache = st.cache := by
  induction ns with
  | nil => intro st; rfl
  | cons n ns ih => intro st; rw [List.foldl_cons, ih, mkFile_cache]

theorem foldl_mkFile_log (ns : List (List Char)) :
    ∀ st : St, (ns.foldl (fun s n => mkFile (framePath n) s) st).log = st.log := by
  induction ns with
  | nil => intro st; rfl
  | cons n ns ih => intro st; rw [List.foldl_cons, ih, mkFile_log]

theorem foldl_unlinkFile_cache (ns : List (List Char)) :
    ∀ st : St, (ns.foldl (fun s n => unlinkFile (framePath n) s) st).cache = st.cache := by
  induction ns with
  | nil => intro st; rfl
  | cons n ns ih => intro st; rw [List.foldl_cons, ih, unlinkFile_cache]

theorem foldl_unlinkFile_log (ns : List (List Char)) :
    ∀ st : St, (ns.foldl (fun s n => unlinkFile (framePath n) s) st).log = st.log := by
  induction ns with
  | nil => intro st; rfl
  | cons n ns ih => intro st; rw [List.foldl_cons, ih, unlinkFile_log]

/-- The audio helper leaves the cache alone and logs exactly one `audioS`
invocation. -/
theorem audioM_state (env : Env) (st0 : St) :
    (extractAndUploadAudioM env st0).2.cache = st0.cache ∧
    (extractAndUploadAudioM env st0).2.log = st0.log ++ [Stage.audioS] := by
  rw [extractAndUploadAudioM]
  cases env.ffmpegAudio with
  | error e => exact ⟨rfl, rfl⟩
  | ok u =>
    cases env.ffprobeAudio with
    | error e => simp [mkFile_cache, mkFile_log, addStage_cache, addStage]
    | ok probe =>
      cases env.uploadAudio with
      | error e => simp [mkFile_cache, mkFile_log, addStage_cache, addStage]
      | ok up =>
        simp [unlinkFile_cache, unlinkFile_log, mkFile_cache, mkFile_log,
          addStage_cache, addStage]

/-- The frames helper leaves the cache alone and logs exactly one `framesS`
invocation. -/
theorem framesM_state (env : Env) (req : Req) (st0 : St) :
    (extractAndUploadFramesM env req st0).2.cache = st0.cache ∧
    (extractAndUploadFramesM env req st0).2.log = st0.log ++ [Stage.framesS] := by
  rw [extractAndUploadFramesM]
  cases env.ffprobeVideo with
  | error e => simp [mkFile_cache, mkFile_log, addStage_cache, addStage]
  | ok probe =>
    cases env.ffmpegFrames with
    | error e => simp [mkFile_cache, mkFile_log, addStage_cache, addStage]
    | ok names =>
      cases huf : uploadFramesList env
          (usedSettingsOf req.interval req.imageFormat req.quality)
          (names.filter (fun n =>
            (usedSettingsOf req.interval req.imageFormat req.quality).format.isSuffixOf n)) 0 with
      | error e =>
        simp [huf, foldl_mkFile_cache, foldl_mkFile_log, mkFile_cache, mkFile_log,
          addStage_cache, addStage]
      | ok frames =>
        simp only [huf]
        split <;>
          simp [unlinkFile_cache, unlinkFile_log, foldl_unlinkFile_cache,
            foldl_unlinkFile_log, foldl_mkFile_cache, foldl_mkFile_log,
            mkFile_cache, mkFile_log, addStage_cache, addStage]

def gptStages : List Stage :=
  [.gptS 0, .gptS 1, .gptS 2, .gptS 3, .gptS 4, .gptS 5, .createS]

/-- Combined specification of `evalStages`: it never touches the file list;
it appends a prefix of the completion/persist stage order to the log; on
error the cache is unchanged; any new cache entry carries a validated
document; and on success the cache gains exactly the returned payload under
the given identifier, validated. -/
theorem evalStages_spec (env : Env) (id : List Char) (a : AudioData)
    (fd : FramesData) (t : List Char) (st0 : St) :
    (evalStages env id a fd t st0).2.files = st0.files ∧
    (∃ l, (evalStages env id a fd t st0).2.log = st0.log ++ l ∧
      l.Sublist gptStages) ∧
    ((∃ e, (evalStages env id a fd t st0).1 = .error e) →
      (evalStages env id a fd t st0).2.cache = st0.cache) ∧
    (∀ k p, (k, p) ∈ (evalStages env id a fd t st0).2.cache →
      (k, p) ∈ st0.cache ∨ isOpenAIResponseResult p.result = true) ∧
    (∀ p, (evalStages env id a fd t st0).1 = .ok p →
      (evalStages env id a fd t st0).2.cache = (id, p) :: st0.cache ∧
        isOpenAIResponseResult p.result = true) := by
  rw [evalStages]
  cases env.gpt 0 with
  | error e =>
    dsimp only [addStages]
    exact ⟨rfl, ⟨_, rfl, by decide⟩, fun _ => rfl, fun k p hp => Or.inl hp,
      fun p hp => absurd hp (by simp)⟩
  | ok opening =>
  cases env.gpt 1 with
  | error e =>
    dsimp only [addStages]
    exact ⟨rfl, ⟨_, rfl, by decide⟩, fun _ => rfl, fun k p hp => Or.inl hp,
      fun p hp => absurd hp (by simp)⟩
  | ok setup =>
  cases env.gpt 2 with
  | error e =>
    dsimp only [addStages]
    exact ⟨rfl, ⟨_, rfl, by decide⟩, fun _ => rfl, fun k p hp => Or.inl hp,
      fun p hp => absurd hp (by simp)⟩
  | ok mainV =>
  cases env.gpt 3 with
  | error e =>
    dsimp only [addStages]
    exact ⟨rfl, ⟨_, rfl, by decide⟩, fun _ => rfl, fun k p hp => Or.inl hp,
      fun p hp => absurd hp (by simp)⟩
  | ok climax =>
  cases env.gpt 4 with
  | error e =>
    dsimp only [addStages]
    exact ⟨rfl, ⟨_, rfl, by decide⟩, fun _ => rfl, fun k p hp => Or.inl hp,
      fun p hp => absurd hp (by simp)⟩
  | ok closing =>
  cases env.gpt 5 with
  | error e =>
    dsimp only [addStage, addStages]
    refine ⟨rfl, ⟨[Stage.gptS 0, .gptS 1, .gptS 2, .gptS 3, .gptS 4, .gptS 5],
      by simp, by decide⟩, fun _ => rfl, fun k p hp => Or.inl hp,
      fun p hp => absurd hp (by simp)⟩
  | ok general =>
  dsimp only [addStage, addStages]
  cases hval : isOpenAIResponseResult (JSValue.obj [(keyGeneral, general),
      (keyOpening, opening), (keySetup, setup), (keyMain, mainV),
      (keyClimax, climax), (keyClosing, closing)]) with
  | false =>
    rw [if_pos rfl]
    refine ⟨rfl, ⟨[Stage.gptS 0, .gptS 1, .gptS 2, .gptS 3, .gptS 4, .gptS 5],
      by simp, by decide⟩, fun _ => rfl, fun k p hp => Or.inl hp,
      fun p hp => absurd hp (by simp)⟩
  | true =>
    rw [if_neg (by simp)]
    cases hco : env.createOk with
    | false =>
      rw [if_neg (by simp)]
      refine ⟨rfl, ⟨[Stage.gptS 0, .gptS 1, .gptS 2, .gptS 3, .gptS 4, .gptS 5,
        .createS], by simp, by decide⟩, fun _ => rfl, fun k p hp => Or.inl hp,
        fun p hp => absurd hp (by simp)⟩
    | true =>
      rw [if_pos rfl]
      refine ⟨rfl, ⟨[Stage.gptS 0, .gptS 1, .gptS 2, .gptS 3, .gptS 4, .gptS 5,
        .createS], by simp, by decide⟩, ?_, ?_, ?_⟩
      · intro ⟨e, he⟩; exact absurd he (by simp)
      · intro k p hp
        rcases List.mem_cons.mp hp with heq | hmem
        · rw [Prod.mk.injEq] at heq
          right
          rw [heq.2]
          exact hval
        · exact Or.inl hmem
      · intro p hp
        simp only [Except.ok.injEq] at hp
        subst hp
        exact ⟨rfl, hval⟩

/-- The collaborator order of a full pipeline run. -/
def stageOrder : List Stage :=
  [.hashS, .lookupS, .audioS, .framesS, .fetchS, .transcribeS,
   .gptS 0, .gptS 1, .gptS 2, .gptS 3, .gptS 4, .gptS 5, .createS]

theorem gpt_sub_stageOrder {l : List Stage} (h : l.Sublist gptStages) :
    (Stage.hashS :: Stage.lookupS :: Stage.audioS :: Stage.framesS :: l).Sublist
      stageOrder := by
  have h2 : l.Sublist ([Stage.fetchS, Stage.transcribeS] ++ gptStages) :=
    h.trans (List.sublist_append_right _ _)
  have h3 := List.Sublist.append
    (List.Sublist.refl [Stage.hashS, Stage.lookupS, Stage.audioS, Stage.framesS]) h2
  exact h3

theorem gpt_sub_stageOrder6 {l : List Stage} (h : l.Sublist gptStages) :
    (Stage.hashS :: Stage.lookupS :: Stage.audioS :: Stage.framesS ::
      Stage.fetchS :: Stage.transcribeS :: l).Sublist stageOrder := by
  have h3 := List.Sublist.append
    (List.Sublist.refl [Stage.hashS, Stage.lookupS, Stage.audioS, Stage.framesS,
      Stage.fetchS, Stage.transcribeS]) h
  exact h3

theorem notMem_unlink (p : List Char) (st : St) :
    p ∉ (unlinkFile p st).files := by
  simp [unlinkFile]

theorem mem_unlink {p q : List Char} {st : St}
    (h : p ∈ (unlinkFile q st).files) : p ∈ st.files ∧ p ≠ q := by
  simpa [unlinkFile] using h

theorem mem_mkFile {p q : List Char} {st : St}
    (h : p ∈ (mkFile q st).files) : p = q ∨ p ∈ st.files := by
  rw [mkFile] at h
  split at h
  · exact Or.inr h
  · exact List.mem_cons.mp h

/-- Combined specification of the request body: the log is a prefix-ordered
selection of the collaborator order; on error the cache is unchanged; every
new cache entry is validated; a success on a cache miss persists exactly
the returned payload under the computed identifier; and a success leaves the
uploaded file deleted. -/
theorem runBody_spec (hash : List Char → List Char) (env : Env) (req : Req)
    (st0 : St) :
    (∃ l, (runBody hash env req st0).2.log = st0.log ++ l ∧
      l.Sublist stageOrder) ∧
    ((∃ e, (runBody hash env req st0).1 = .error e) →
      (runBody hash env req st0).2.cache = st0.cache) ∧
    (∀ k p, (k, p) ∈ (runBody hash env req st0).2.cache →
      (k, p) ∈ st0.cache ∨ isOpenAIResponseResult p.result = true) ∧
    (∀ p, (runBody hash env req st0).1 = .ok p →
      lookupCache (hash req.bytes) st0.cache = none →
      (runBody hash env req st0).2.cache = (hash req.bytes, p) :: st0.cache) ∧
    (∀ p, (runBody hash env req st0).1 = .ok p →
      req.path ∉ (runBody hash env req st0).2.files) := by
  rw [runBody]
  dsimp only [addStage]
  cases hlk : lookupCache (hash req.bytes) st0.cache with
  | some payload =>
    dsimp only
    refine ⟨⟨[Stage.hashS, Stage.lookupS], by rw [unlinkFile_log]; simp, by decide⟩,
      fun ⟨e, he⟩ => absurd he (by simp), fun k p hp => Or.inl hp, ?_, ?_⟩
    · intro p _ hnone
      exact absurd hnone (by simp)
    · intro p _
      exact notMem_unlink req.path _
  | none =>
    dsimp only
    have hAspec := audioM_state env
      ⟨st0.files, st0.cache, st0.log ++ [Stage.hashS] ++ [Stage.lookupS]⟩
    cases hA : extractAndUploadAudioM env
        ⟨st0.files, st0.cache, st0.log ++ [Stage.hashS] ++ [Stage.lookupS]⟩ with
    | mk ra sta =>
      rw [hA] at hAspec
      have hAc : sta.cache = st0.cache := hAspec.1
      have hAl : sta.log = (st0.log ++ [Stage.hashS] ++ [Stage.lookupS]) ++
          [Stage.audioS] := hAspec.2
      cases ra with
      | error e =>
        dsimp only
        cases hF : extractAndUploadFramesM env req sta with
        | mk rf stf =>
          dsimp only
          have hFc : stf.cache = sta.cache := by
            have := (framesM_state env req sta).1; rw [hF] at this; exact this
          have hFl : stf.log = sta.log ++ [Stage.framesS] := by
            have := (framesM_state env req sta).2; rw [hF] at this; exact this
          refine ⟨⟨[Stage.hashS, Stage.lookupS, Stage.audioS, Stage.framesS],
            ?_, by decide⟩, fun _ => by rw [hFc, hAc],
            fun k p hp => Or.inl (by rw [hFc, hAc] at hp; exact hp),
            fun p hp => absurd hp (by simp),
            fun p hp => absurd hp (by simp)⟩
          rw [hFl, hAl]
          simp
      | ok audioData =>
        dsimp only
        cases hF : extractAndUploadFramesM env req sta with
        | mk rf stf =>
          have hFc : stf.cache = sta.cache := by
            have := (framesM_state env req sta).1; rw [hF] at this; exact this
          have hFl : stf.log = sta.log ++ [Stage.framesS] := by
            have := (framesM_state env req sta).2; rw [hF] at this; exact this
          have hstfc : stf.cache = st0.cache := by rw [hFc, hAc]
          have hstfl : stf.log = st0.log ++ [Stage.hashS, Stage.lookupS,
              Stage.audioS, Stage.framesS] := by
            rw [hFl, hAl]; simp
          cases rf with
          | error e =>
            exact ⟨⟨[Stage.hashS, Stage.lookupS, Stage.audioS, Stage.framesS],
              hstfl, by decide⟩, fun _ => hstfc,
              fun k p hp => Or.inl (by rw [hstfc] at hp; exact hp),
              fun p hp => absurd hp (by simp),
              fun p hp => absurd hp (by simp)⟩
          | ok framesData =>
            cases ht : audioData.transcript with
            | some t =>
              dsimp only
              obtain ⟨hEf, ⟨l', hEl, hEsub⟩, hEerr, hEmem, hEok⟩ :=
                evalStages_spec env (hash req.bytes) audioData framesData t
                  (unlinkFile req.path stf)
              refine ⟨⟨[Stage.hashS, Stage.lookupS, Stage.audioS, Stage.framesS] ++ l',
                ?_, gpt_sub_stageOrder hEsub⟩, ?_, ?_, ?_, ?_⟩
              · rw [hEl, unlinkFile_log, hstfl, List.append_assoc]
              · intro he
                rw [hEerr he, unlinkFile_cache, hstfc]
              · intro k p hp
                rcases hEmem k p hp with hin | hvalp
                · rw [unlinkFile_cache, hstfc] at hin; exact Or.inl hin
                · exact Or.inr hvalp
              · intro p hp _
                rw [(hEok p hp).1, unlinkFile_cache, hstfc]
              · intro p _
                rw [hEf]
                exact notMem_unlink req.path stf
            | none =>
              dsimp only
              have hscache : ∀ s : Stage,
                  (addStage s (unlinkFile req.path stf)).cache = st0.cache := by
                intro s; rw [addStage_cache, unlinkFile_cache, hstfc]
              cases hfetch : env.fetchAudio with
              | error e =>
                refine ⟨⟨[Stage.hashS, Stage.lookupS, Stage.audioS, Stage.framesS,
                  Stage.fetchS], ?_, by decide⟩,
                  fun _ => by simp [unlinkFile_cache, hstfc],
                  fun k p hp => Or.inl (by
                    simp only [unlinkFile_cache, hstfc] at hp; exact hp),
                  fun p hp => absurd hp (by simp),
                  fun p hp => absurd hp (by simp)⟩
                simp [unlinkFile_log, hstfl]
              | ok u =>
                dsimp only
                cases htr : env.transcribe with
                | error e =>
                  refine ⟨⟨[Stage.hashS, Stage.lookupS, Stage.audioS, Stage.framesS,
                    Stage.fetchS, Stage.transcribeS], ?_, by decide⟩,
                    fun _ => by
                      simp [mkFile_cache, unlinkFile_cache, hstfc],
                    fun k p hp => Or.inl (by
                      simp only [mkFile_cache, unlinkFile_cache, hstfc] at hp
                      exact hp),
                    fun p hp => absurd hp (by simp),
                    fun p hp => absurd hp (by simp)⟩
                  simp [mkFile_log, unlinkFile_log, hstfl]
                | ok t =>
                  dsimp only
                  obtain ⟨hEf, ⟨l', hEl, hEsub⟩, hEerr, hEmem, hEok⟩ :=
                    evalStages_spec env (hash req.bytes) audioData framesData t
                      (unlinkFile audioTempPath
                        ⟨(mkFile audioTempPath
                            ⟨(unlinkFile req.path stf).files,
                             (unlinkFile req.path stf).cache,
                             (unlinkFile req.path stf).log ++ [Stage.fetchS]⟩).files,
                         (mkFile audioTempPath
                            ⟨(unlinkFile req.path stf).files,
                             (unlinkFile req.path stf).cache,
                             (unlinkFile req.path stf).log ++ [Stage.fetchS]⟩).cache,
                         (mkFile audioTempPath
                            ⟨(unlinkFile req.path stf).files,
                             (unlinkFile req.path stf).cache,
                             (unlinkFile req.path stf).log ++ [Stage.fetchS]⟩).log ++
                           [Stage.transcribeS]⟩)
                  have hc8 : (unlinkFile audioTempPath
                      ⟨(mkFile audioTempPath
                          ⟨(unlinkFile req.path stf).files,
                           (unlinkFile req.path stf).cache,
                           (unlinkFile req.path stf).log ++ [Stage.fetchS]⟩).files,
                       (mkFile audioTempPath
                          ⟨(unlinkFile req.path stf).files,
                           (unlinkFile req.path stf).cache,
                           (unlinkFile req.path stf).log ++ [Stage.fetchS]⟩).cache,
                       (mkFile audioTempPath
                          ⟨(unlinkFile req.path stf).files,
                           (unlinkFile req.path stf).cache,
                           (unlinkFile req.path stf).log ++ [Stage.fetchS]⟩).log ++
                         [Stage.transcribeS]⟩).cache = st0.cache := by
                    simp [unlinkFile_cache, mkFile_cache, hstfc]
                  have hl8 : (unlinkFile audioTempPath
                      ⟨(mkFile audioTempPath
                          ⟨(unlinkFile req.path stf).files,
                           (unlinkFile req.path stf).cache,
                           (unlinkFile req.path stf).log ++ [Stage.fetchS]⟩).files,
                       (mkFile audioTempPath
                          ⟨(unlinkFile req.path stf).files,
                           (unlinkFile req.path stf).cache,
                           (unlinkFile req.path stf).log ++ [Stage.fetchS]⟩).cache,
                       (mkFile audioTempPath
                          ⟨(unlinkFile req.path stf).files,
                           (unlinkFile req.path stf).cache,
                           (unlinkFile req.path stf).log ++ [Stage.fetchS]⟩).log ++
                         [Stage.transcribeS]⟩).log =
                      st0.log ++ [Stage.hashS, Stage.lookupS, Stage.audioS,
                        Stage.framesS, Stage.fetchS, Stage.transcribeS] := by
                    simp [unlinkFile_log, mkFile_log, hstfl]
                  refine ⟨⟨[Stage.hashS, Stage.lookupS, Stage.audioS, Stage.framesS,
                    Stage.fetchS, Stage.transcribeS] ++ l', ?_,
                    gpt_sub_stageOrder6 hEsub⟩, ?_, ?_, ?_, ?_⟩
                  · rw [hEl, hl8, List.append_assoc]
                  · intro he
                    rw [hEerr he, hc8]
                  · intro k p hp
                    rcases hEmem k p hp with hin | hvalp
                    · rw [hc8] at hin; exact Or.inl hin
                    · exact Or.inr hvalp
                  · intro p hp _
                    rw [(hEok p hp).1, hc8]
                  · intro p _
                    rw [hEf]
                    intro hmemf
                    obtain ⟨h1, hne⟩ := mem_unlink hmemf
                    rcases mem_mkFile h1 with heq | h2
                    · exact hne heq
                    · exact (mem_unlink h2).2 rfl

theorem stageOrder_nodup : stageOrder.Nodup := by decide

/-- C8: whatever the collaborator outcomes, if a pipeline invocation fails,
the ResultCache is unchanged (no partial result persisted); any record the
invocation writes carries a document accepted by `isOpenAIResponseResult`
(the create happens only after validation); and the caller sees a single
terminal outcome with no stage invoked twice (the call log is
duplicate-free). -/
theorem pipeline_single_failure (hash : List Char → List Char) (env : Env)
    (req : Req) (st0 : St) (hlog : st0.log = []) :
    ((∃ e, (runMain hash env req st0).1 = .error e) →
      (runMain hash env req st0).2.cache = st0.cache) ∧
    (∀ k p, (k, p) ∈ (runMain hash env req st0).2.cache →
      (k, p) ∈ st0.cache ∨ isOpenAIResponseResult p.result = true) ∧
    (runMain hash env req st0).2.log.Nodup := by
  obtain ⟨⟨l, hl, hsub⟩, herr, hmem, _, _⟩ := runBody_spec hash env req st0
  have hnodup : ∀ lg : List Stage, lg = st0.log ++ l → lg.Nodup := by
    intro lg hlg
    rw [hlg, hlog, List.nil_append]
    exact stageOrder_nodup.sublist hsub
  rw [runMain]
  cases hB : runBody hash env req st0 with
  | mk r st =>
    rw [hB] at hl herr hmem
    dsimp only at hl herr hmem
    cases r with
    | ok p =>
      dsimp only
      exact ⟨fun ⟨e, he⟩ => absurd he (by simp), hmem, hnodup st.log hl⟩
    | error e =>
      dsimp only
      refine ⟨fun _ => ?_, ?_, ?_⟩
      · rw [unlinkFile_cache]
        exact herr ⟨e, rfl⟩
      · intro k p hp
        rw [unlinkFile_cache] at hp
        exact hmem k p hp
      · rw [unlinkFile_log]
        exact hnodup st.log hl

/-- C9 (amended): the original uploaded video file is removed on every exit
path of the route — success, cache hit, or failure (the `catch` block's
unlink runs last). -/
theorem upload_removed_on_all_paths (hash : List Char → List Char) (env : Env)
    (req : Req) (st0 : St) :
    req.path ∉ (runMain hash env req st0).2.files := by
  obtain ⟨_, _, _, _, hok⟩ := runBody_spec hash env req st0
  rw [runMain]
  cases hB : runBody hash env req st0 with
  | mk r st =>
    rw [hB] at hok
    dsimp only at hok
    cases r with
    | ok p =>
      dsimp only
      exact hok p rfl
    | error e =>
      dsimp only
      exact notMem_unlink req.path st

/-! ## Concrete pipeline fixtures -/

/-- Content-addressed identity modelled as an arbitrary deterministic
function of the bytes; the identity function suffices for evaluation. -/
def hashId : List Char → List Char := fun b => b

def upload0 : UploadRes := ⟨"u".toList, "n".toList, "wav".toList, 1⟩

def probeA0 : AudioProbe := ⟨1, none, none, none⟩

def probeV0 : VideoProbe := ⟨1, 2, 3⟩

/-- A valid `GeneralResultItem`: empty recommendations/indicators plus an
empty `summary` string. -/
def genItem : JSValue :=
  .obj [(keyRecomendations, .arr []), (keyIndicators, .obj []),
    (keySummary, .str [])]

/-- All collaborators succeed; the completion collaborator returns valid
shapes (the all-empty item for segments and `genItem` for the summary). -/
def envOk : Env where
  ffmpegAudio := .ok ()
  ffprobeAudio := .ok probeA0
  uploadAudio := .ok upload0
  ffprobeVideo := .ok probeV0
  ffmpegFrames := .ok []
  uploadFrame := fun _ _ => .ok upload0
  fetchAudio := .ok ()
  transcribe := .ok "hello".toList
  gpt := fun i => if i = 5 then .ok genItem else .ok emptyResultItem
  createOk := true

/-- Like `envOk`, but audio probing fails after the temp wav was written. -/
def envProbeFail : Env := { envOk with ffprobeAudio := .error "probe failed".toList }

def req0 : Req where
  path := "uploads/video".toList
  bytes := "vid".toList
  filename := "video".toList
  mimetype := "video/mp4".toList
  fsize := 1
  interval := none
  imageFormat := none
  quality := none

def st00 : St := ⟨["uploads/video".toList], [], []⟩

/-- Witness for C8 at an all-success invocation. -/
theorem pipeline_single_failure_witness :
    ((∃ e, (runMain hashId envOk req0 st00).1 = .error e) →
      (runMain hashId envOk req0 st00).2.cache = st00.cache) ∧
    (∀ k p, (k, p) ∈ (runMain hashId envOk req0 st00).2.cache →
      (k, p) ∈ st00.cache ∨ isOpenAIResponseResult p.result = true) ∧
    (runMain hashId envOk req0 st00).2.log.Nodup :=
  pipeline_single_failure hashId envOk req0 st00 rfl

/-- C9 counterexample: when audio probing fails after the temp wav was
extracted, the invocation ends in error but `temp/audio.wav` is still on
disk — the claim that all locally-staged intermediate media are removed on
every exit path is false. -/
theorem cleanup_leaks_temp_audio :
    (∃ e, (runMain hashId envProbeFail req0 st00).1 = .error e) ∧
    tempAudioPath ∈ (runMain hashId envProbeFail req0 st00).2.files :=
  ⟨⟨"probe failed".toList, rfl⟩, by decide⟩

/-- C7: two invocations on byte-identical content use the same identifier;
if the first invocation starts on a cache miss and succeeds, the second
returns exactly the payload the first persisted, leaves the cache unchanged,
and its collaborator log is just hash-then-lookup: no extraction,
transcription, or completion collaborator is invoked. -/
theorem cache_idempotent (hash : List Char → List Char) (env1 env2 : Env)
    (req1 req2 : Req) (fs1 fs2 : List (List Char))
    (cache0 : List (List Char × Payload)) (p : Payload)
    (hmiss : lookupCache (hash req1.bytes) cache0 = none)
    (hbytes : req2.bytes = req1.bytes)
    (hok : (runMain hash env1 req1 ⟨fs1, cache0, []⟩).1 = .ok p) :
    hash req2.bytes = hash req1.bytes ∧
    (runMain hash env1 req1 ⟨fs1, cache0, []⟩).2.cache =
      (hash req1.bytes, p) :: cache0 ∧
    (runMain hash env2 req2
      ⟨fs2, (runMain hash env1 req1 ⟨fs1, cache0, []⟩).2.cache, []⟩).1 = .ok p ∧
    (runMain hash env2 req2
      ⟨fs2, (runMain hash env1 req1 ⟨fs1, cache0, []⟩).2.cache, []⟩).2.cache =
      (runMain hash env1 req1 ⟨fs1, cache0, []⟩).2.cache ∧
    (runMain hash env2 req2
      ⟨fs2, (runMain hash env1 req1 ⟨fs1, cache0, []⟩).2.cache, []⟩).2.log =
      [Stage.hashS, Stage.lookupS] := by
  have hcache1 : (runMain hash env1 req1 ⟨fs1, cache0, []⟩).2.cache =
      (hash req1.bytes, p) :: cache0 := by
    obtain ⟨_, _, _, hok4, _⟩ := runBody_spec hash env1 req1 ⟨fs1, cache0, []⟩
    rw [runMain] at hok ⊢
    cases hB : runBody hash env1 req1 ⟨fs1, cache0, []⟩ with
    | mk r st =>
      rw [hB] at hok hok4
      dsimp only at hok hok4 ⊢
      cases r with
      | error e => exact absurd hok (by simp)
      | ok p' =>
        dsimp only at hok
        have hpp : p' = p := by simpa using hok
        subst hpp
        exact hok4 p' rfl hmiss
  refine ⟨by rw [hbytes], hcache1, ?_, ?_, ?_⟩ <;>
    rw [hcache1, runMain, runBody] <;>
    simp only [addStage_cache] <;>
    rw [show lookupCache (hash req2.bytes)
        ((hash req1.bytes, p) :: cache0) = some p by
      rw [hbytes]; simp [lookupCache]] <;>
    dsimp only <;>
    simp [unlinkFile_cache, unlinkFile_log, addStage]

/-- The payload persisted by `envOk` on `req0`: gpt returns the all-empty
item for each segment and `genItem` for the summary; no frames are
extracted, so the categorization is empty. -/
def c7audio : AudioData :=
  ⟨"u".toList, "n".toList, "wav".toList, 1, 1, none, none, none, none⟩

def c7doc : JSValue :=
  .obj [(keyGeneral, genItem), (keyOpening, emptyResultItem),
    (keySetup, emptyResultItem), (keyMain, emptyResultItem),
    (keyClimax, emptyResultItem), (keyClosing, emptyResultItem)]

def c7pay : Payload := ⟨c7doc, c7audio, emptyCat⟩

/-- Witness for C7: a concrete first invocation under `envOk` persists
`c7pay`, and the repeat invocation returns it from the cache alone. -/
theorem cache_idempotent_witness :
    hashId req0.bytes = hashId req0.bytes ∧
    (runMain hashId envOk req0 ⟨st00.files, [], []⟩).2.cache =
      (hashId req0.bytes, c7pay) :: [] ∧
    (runMain hashId envOk req0
      ⟨st00.files, (runMain hashId envOk req0 ⟨st00.files, [], []⟩).2.cache,
        []⟩).1 = .ok c7pay ∧
    (runMain hashId envOk req0
      ⟨st00.files, (runMain hashId envOk req0 ⟨st00.files, [], []⟩).2.cache,
        []⟩).2.cache =
      (runMain hashId envOk req0 ⟨st00.files, [], []⟩).2.cache ∧
    (runMain hashId envOk req0
      ⟨st00.files, (runMain hashId envOk req0 ⟨st00.files, [], []⟩).2.cache,
        []⟩).2.log = [Stage.hashS, Stage.lookupS] :=
  cache_idempotent hashId envOk envOk req0 req0 st00.files st00.files [] c7pay
    rfl rfl rfl

end VFE
